import Mathlib

/-!
Formal model of the learning-path generation engine
(`src/domain/entities/*.py`, `src/application/services/*.py`).

Python data is embedded shallowly: floats become `Rat` (only comparisons,
integer truncation and sums of simple decimal literals occur in the modelled
code, on which rationals agree with IEEE doubles), UUID identifiers become
`Nat` drawn from explicit supplies, Python `set` fields become duplicate-free
lists with insert-if-absent / remove-by-value operations, and exceptions
become `Except` values.  Python's `list.sort` / `sorted` (stable) is modelled
by a stable insertion sort.  Iteration over a Python `set` has no specified
order; wherever the source iterates a set in a way that could matter, the
iteration order is taken as an explicit list parameter constrained to be a
permutation of the set's elements.
-/

deriving instance DecidableEq for Except

namespace LearnPath

/-! ## Stable sorting, modelling Python `list.sort` / `sorted(key=...)` -/

/-- Stable insertion of `x` into `l`: `x` is placed before the first element
whose key is strictly greater, i.e. after all elements with key `≤ key x`. -/
def stInsert {α β : Type} [LinearOrder β] (key : α → β) (x : α) : List α → List α
  | [] => [x]
  | y :: ys => if key y ≤ key x then y :: stInsert key x ys else x :: y :: ys

/-- Stable ascending sort by `key`, agreeing with Python's stable sort. -/
def stSort {α β : Type} [LinearOrder β] (key : α → β) : List α → List α
  | [] => []
  | x :: xs => stInsert key x (stSort key xs)

theorem stInsert_perm {α β : Type} [LinearOrder β] (key : α → β) (x : α) :
    ∀ l : List α, (stInsert key x l).Perm (x :: l)
  | [] => List.Perm.refl _
  | y :: ys => by
    unfold stInsert
    by_cases h : key y ≤ key x
    · simp only [h, if_pos]
      exact ((stInsert_perm key x ys).cons y).trans (List.Perm.swap x y ys)
    · simp only [h, if_neg, not_false_iff]
      exact List.Perm.refl _

theorem stSort_perm {α β : Type} [LinearOrder β] (key : α → β) :
    ∀ l : List α, (stSort key l).Perm l
  | [] => List.Perm.refl _
  | x :: xs => (stInsert_perm key x (stSort key xs)).trans ((stSort_perm key xs).cons x)

theorem stInsert_countP {α β : Type} [LinearOrder β] (key : α → β) (x : α)
    (p : α → Bool) (l : List α) :
    (stInsert key x l).countP p = (x :: l).countP p :=
  (stInsert_perm key x l).countP_eq p

theorem stSort_countP {α β : Type} [LinearOrder β] (key : α → β)
    (p : α → Bool) (l : List α) :
    (stSort key l).countP p = l.countP p :=
  (stSort_perm key l).countP_eq p

theorem stInsert_sorted {α β : Type} [LinearOrder β] (key : α → β) (x : α)
    (l : List α) (h : l.Sorted (fun a b => key a ≤ key b)) :
    (stInsert key x l).Sorted (fun a b => key a ≤ key b) := by
  induction l with
  | nil => simp [stInsert]
  | cons y ys ih =>
    rw [List.sorted_cons] at h
    unfold stInsert
    by_cases hyx : key y ≤ key x
    · simp only [hyx, if_pos, List.sorted_cons]
      refine ⟨?_, ih h.2⟩
      intro b hb
      have := (stInsert_perm key x ys).mem_iff.mp hb
      rcases List.mem_cons.mp this with hbx | hby
      · exact hbx ▸ hyx
      · exact h.1 b hby
    · simp only [hyx, if_neg, not_false_iff, List.sorted_cons]
      refine ⟨?_, ?_, h.2⟩
      · intro b hb
        rcases List.mem_cons.mp hb with hby | hbys
        · exact hby ▸ le_of_not_le hyx
        · exact le_trans (le_of_not_le hyx) (h.1 b hbys)
      · exact h.1

theorem stSort_sorted {α β : Type} [LinearOrder β] (key : α → β) :
    ∀ l : List α, (stSort key l).Sorted (fun a b => key a ≤ key b)
  | [] => List.sorted_nil
  | x :: xs => stInsert_sorted key x (stSort key xs) (stSort_sorted key xs)

theorem stSort_of_sorted {α β : Type} [LinearOrder β] (key : α → β) :
    ∀ l : List α, l.Sorted (fun a b => key a < key b) → stSort key l = l
  | [], _ => rfl
  | x :: xs, h => by
    rw [List.sorted_cons] at h
    unfold stSort
    rw [stSort_of_sorted key xs h.2]
    cases xs with
    | nil => rfl
    | cons y ys =>
      unfold stInsert
      have hxy : key x < key y := h.1 y (List.mem_cons_self _ _)
      simp [not_le.mpr hxy]

/-! ## Domain enumerations (`src/domain/entities/skill.py`,
`dependency_relation.py`, `learning_node.py`) -/

/-- `SkillType` enum from `skill.py`. -/
inductive SkillType where
  | frontend | backend | data_science | infrastructure
  | mobile | devops | machine_learning | security
deriving DecidableEq, Repr

/-- `SkillType.get_compatible_types` from `skill.py`: skill types compatible
as learning predecessors of the given type. -/
def SkillType.get_compatible_types : SkillType → List SkillType
  | .frontend => [.backend, .mobile]
  | .backend => [.frontend, .data_science, .devops, .security]
  | .data_science => [.backend, .machine_learning]
  | .infrastructure => [.devops, .backend, .security]
  | .mobile => [.frontend, .backend]
  | .devops => [.infrastructure, .backend, .security]
  | .machine_learning => [.data_science, .backend]
  | .security => [.backend, .infrastructure, .devops]

/-- The Python `str(SkillType.X)` text, used as the group-ordering key in
`LearningPath._apply_learning_heuristics`. -/
def SkillType.pyStr : SkillType → String
  | .frontend => "SkillType.FRONTEND"
  | .backend => "SkillType.BACKEND"
  | .data_science => "SkillType.DATA_SCIENCE"
  | .infrastructure => "SkillType.INFRASTRUCTURE"
  | .mobile => "SkillType.MOBILE"
  | .devops => "SkillType.DEVOPS"
  | .machine_learning => "SkillType.MACHINE_LEARNING"
  | .security => "SkillType.SECURITY"

/-- The `.value` string of a `SkillType`. -/
def SkillType.val : SkillType → String
  | .frontend => "frontend"
  | .backend => "backend"
  | .data_science => "data_science"
  | .infrastructure => "infrastructure"
  | .mobile => "mobile"
  | .devops => "devops"
  | .machine_learning => "machine_learning"
  | .security => "security"

/-- `SkillLevel` enum from `skill.py`, ordered basic < intermediate <
advanced < expert. -/
inductive SkillLevel where
  | basic | intermediate | advanced | expert
deriving DecidableEq, Repr

/-- Position of a level in `_SKILL_LEVEL_ORDER` (`graph_builder.py`). -/
def SkillLevel.idx : SkillLevel → Nat
  | .basic => 0
  | .intermediate => 1
  | .advanced => 2
  | .expert => 3

/-- The `.value` string of a `SkillLevel`. -/
def SkillLevel.val : SkillLevel → String
  | .basic => "basic"
  | .intermediate => "intermediate"
  | .advanced => "advanced"
  | .expert => "expert"

/-- `Skill` value object from `skill.py`. -/
structure Skill where
  skill_type : SkillType
  skill_level : SkillLevel
deriving DecidableEq, Repr

/-- `Topic` entity from `topic.py`, restricted to the fields the generation
engine reads: `name` and `parent_topics` (a set of topic names). -/
structure Topic where
  name : String
  parent_topics : List String
deriving DecidableEq, Repr

/-- `Repository` aggregate from `repository.py`, restricted to the fields the
generation engine reads.  `complexity_score` and `learning_hours_estimate`
are derived on mutation in the source; the pipeline treats them as given
read-only inputs, so they are plain fields here. -/
structure Repository where
  repository_id : Nat
  name : String
  path : String
  primary_skill : Option Skill
  topics : List Topic
  complexity_score : Rat
  learning_hours_estimate : Nat
deriving DecidableEq, Repr

/-- `Repository.get_recommended_learning_order` from `repository.py`:
skill-level weight (basic 1 / intermediate 3 / advanced 5 / expert 7)
plus `int(complexity_score)` plus the total number of parent topics. -/
def Repository.get_recommended_learning_order (r : Repository) : Int :=
  let skillPart : Int :=
    match r.primary_skill with
    | some sk =>
      match sk.skill_level with
      | .basic => 1
      | .intermediate => 3
      | .advanced => 5
      | .expert => 7
    | none => 0
  let prereqCount : Int := (r.topics.map (fun t => t.parent_topics.length)).sum
  skillPart + Int.ofNat r.complexity_score.floor.toNat + prereqCount

/-- `DependencyType` enum from `dependency_relation.py`. -/
inductive DependencyType where
  | prerequisite | recommended | related | alternative
deriving DecidableEq, Repr

/-- `DependencyStrength` enum from `dependency_relation.py`. -/
inductive DependencyStrength where
  | weak | moderate | strong | critical
deriving DecidableEq, Repr

/-- Creator of a dependency relation (`created_by` field, `"system"` or
`"user"`). -/
inductive Creator where
  | system | user
deriving DecidableEq, Repr

/-- `DependencyRelation` from `dependency_relation.py`, restricted to the
fields the generation engine reads.  Python equality and hashing of this
class use only `(source_repository_id, target_repository_id)`; the
membership operations below compare on that key. -/
structure DependencyRelation where
  source_repository_id : Nat
  target_repository_id : Nat
  dependency_type : DependencyType
  strength : DependencyStrength
  created_by : Creator
deriving DecidableEq, Repr

/-- Python `==` on `DependencyRelation`: same source and target ids. -/
def DependencyRelation.sameKey (a b : DependencyRelation) : Bool :=
  a.source_repository_id = b.source_repository_id &&
  a.target_repository_id = b.target_repository_id

/-- `DependencyRelation.is_blocking_dependency`: PREREQUISITE with STRONG or
CRITICAL strength. -/
def DependencyRelation.is_blocking_dependency (d : DependencyRelation) : Bool :=
  d.dependency_type = DependencyType.prerequisite &&
  (d.strength = DependencyStrength.strong || d.strength = DependencyStrength.critical)

/-- `LearningNode` from `learning_node.py`, restricted to the fields the
generation engine reads.  `prerequisite_nodes` and `dependent_nodes` are
Python sets of node ids, kept as duplicate-free lists. -/
structure LearningNode where
  node_id : Nat
  repository : Repository
  prerequisite_nodes : List Nat
  dependent_nodes : List Nat
  estimated_hours : Nat
deriving DecidableEq, Repr

/-- `LearningPath` aggregate from `learning_path.py`, restricted to the
fields the generation engine reads.  `dependencies` is a Python set of
`DependencyRelation` keyed by (source, target); it is kept as a list with
set-like insertion and discard. -/
structure LearningPath where
  name : String
  description : String
  learner_id : String
  path_id : Nat
  nodes : List LearningNode
  dependencies : List DependencyRelation
  allow_parallel_learning : Bool
  max_parallel_nodes : Nat
deriving DecidableEq, Repr

/-- `LearningPath._get_node_by_id`. -/
def LearningPath.get_node_by_id (p : LearningPath) (nid : Nat) : Option LearningNode :=
  p.nodes.find? (fun n => n.node_id = nid)

/-- `LearningPath.total_repositories` after `_recalculate_metrics`. -/
def LearningPath.total_repositories (p : LearningPath) : Nat := p.nodes.length

/-- `LearningPath.total_estimated_hours` after `_recalculate_metrics`. -/
def LearningPath.total_estimated_hours (p : LearningPath) : Nat :=
  (p.nodes.map (fun n => n.estimated_hours)).sum

/-! ## Domain errors (`src/domain/exceptions/domain_exceptions.py`)

Exception payloads (field names, messages, witness cycles) are not read by
any modelled caller, so the variants carry no data. -/

/-- Tagged domain error, one variant per exception class the engine raises. -/
inductive DomainError where
  | validationError
  | businessRuleViolation
  | circularDependency
  | invalidLearningSequence
deriving DecidableEq, Repr

/-! ## `LearningNode` operations -/

/-- `LearningNode.add_prerequisite` from `learning_node.py`: rejects
self-dependency and an immediate 2-cycle with `dependent_nodes`, otherwise
inserts into the `prerequisite_nodes` set. -/
def LearningNode.add_prerequisite (n : LearningNode) (pid : Nat) :
    Except DomainError LearningNode :=
  if pid = n.node_id then .error .businessRuleViolation
  else if n.dependent_nodes.contains pid then .error .businessRuleViolation
  else .ok { n with prerequisite_nodes :=
    if n.prerequisite_nodes.contains pid then n.prerequisite_nodes
    else n.prerequisite_nodes ++ [pid] }

/-! ## Kahn's algorithm (`LearningPath._topological_sort`) -/

/-- Successors of node `nid` in the adjacency built by `_topological_sort`:
every node listing `nid` among its prerequisites, in `nodes` order. -/
def kahnAdjacency (nodes : List LearningNode) (nid : Nat) : List Nat :=
  (nodes.filter (fun n => n.prerequisite_nodes.contains nid)).map (fun n => n.node_id)

/-- The queue-sort key of `_topological_sort`:
`self._get_node_by_id(nid).repository.get_recommended_learning_order()`. -/
def kahnPriority (nodes : List LearningNode) (nid : Nat) : Int :=
  match nodes.find? (fun n => n.node_id = nid) with
  | some n => n.repository.get_recommended_learning_order
  | none => 0

/-- Association-list read of an in-degree table. -/
def alGet (m : List (Nat × Int)) (k : Nat) : Int :=
  match m.find? (fun kv => kv.1 = k) with
  | some kv => kv.2
  | none => 0

/-- Decrement one entry of an in-degree table. -/
def alDec (m : List (Nat × Int)) (k : Nat) : List (Nat × Int) :=
  m.map (fun kv => if kv.1 = k then (kv.1, kv.2 - 1) else kv)

/-- One-iteration-per-fuel-unit loop of Kahn's algorithm as written in
`_topological_sort`: stable-sort the ready queue by learning priority, pop
the head, decrement its successors, enqueue the newly ready ones.  Each node
enters the queue at most once, so `nodes.length` fuel runs the Python
`while queue:` loop to completion. -/
def kahnLoop (nodes : List LearningNode) :
    Nat → List Nat → List (Nat × Int) → List Nat → List Nat
  | 0, _, _, acc => acc.reverse
  | fuel + 1, queue, indeg, acc =>
    match stSort (kahnPriority nodes) queue with
    | [] => acc.reverse
    | cur :: rest =>
      let step := (kahnAdjacency nodes cur).foldl
        (fun (st : List (Nat × Int) × List Nat) nb =>
          let d := alGet st.1 nb - 1
          (alDec st.1 nb, if d = 0 then st.2 ++ [nb] else st.2))
        (indeg, ([] : List Nat))
      kahnLoop nodes fuel (rest ++ step.2) step.1 (cur :: acc)

/-- `LearningPath._topological_sort`: Kahn's algorithm over the graph induced
by `prerequisite_nodes`, raising `CircularDependencyError` when fewer than
all nodes get ordered. -/
def LearningPath.topological_sort (p : LearningPath) :
    Except DomainError (List LearningNode) :=
  let indeg := p.nodes.map (fun n => (n.node_id, (n.prerequisite_nodes.length : Int)))
  let queue := (p.nodes.filter (fun n => n.prerequisite_nodes.length = 0)).map
    (fun n => n.node_id)
  let ids := kahnLoop p.nodes p.nodes.length queue indeg []
  if ids.length = p.nodes.length then
    .ok (ids.filterMap (fun nid => p.nodes.find? (fun n => n.node_id = nid)))
  else .error .circularDependency

/-! ## Heuristic regrouping (`LearningPath._apply_learning_heuristics`) -/

/-- The `skill_groups` dict key of a node: its primary skill type, or the
Python `None` key when no primary skill is set. -/
def skillKey (n : LearningNode) : Option SkillType :=
  n.repository.primary_skill.map (fun s => s.skill_type)

/-- The group-ordering key `str(x) if x else ""` used by
`_apply_learning_heuristics` when flattening groups. -/
def skillKeyStr : Option SkillType → String
  | some t => t.pyStr
  | none => ""

/-- `LearningPath._apply_learning_heuristics`: bucket the sorted nodes by
primary skill type (dict buckets are the order-preserving filters shown
here), sort each bucket by ascending complexity (stable), then concatenate
the buckets in the order of their `str` keys. -/
def apply_learning_heuristics (sorted_nodes : List LearningNode) : List LearningNode :=
  let keys := (sorted_nodes.map skillKey).dedup
  let ordered := stSort skillKeyStr keys
  (ordered.map (fun k =>
    stSort (fun n => n.repository.complexity_score)
      (sorted_nodes.filter (fun n => skillKey n = k)))).flatten

/-- `LearningPath.optimize_learning_sequence`: topological sort followed by
the heuristic regrouping; on `CircularDependencyError` the path is left
unchanged (the sort raises before any assignment). -/
def LearningPath.optimize_learning_sequence (p : LearningPath) :
    Except DomainError LearningPath :=
  match p.topological_sort with
  | .error e => .error e
  | .ok sorted => .ok { p with nodes := apply_learning_heuristics sorted }

/-! ## `LearningPath.add_repository` and `LearningPath.add_dependency` -/

/-- Python `set.add` on the `dependencies` set: a no-op when a relation with
the same (source, target) key is already present. -/
def setAddDep (deps : List DependencyRelation) (r : DependencyRelation) :
    List DependencyRelation :=
  if deps.any (fun e => e.sameKey r) then deps else deps ++ [r]

/-- `LearningPath.add_repository` (without the unused `prerequisites`
argument, which the graph builder never passes).  `nid` is the fresh node id
drawn for the new `LearningNode` (uuid4 in the source).  The duplicate check
is Python `==` on `Repository`, which compares `path`. -/
def LearningPath.add_repository (p : LearningPath) (repo : Repository) (nid : Nat) :
    Except DomainError LearningNode × LearningPath :=
  if p.nodes.any (fun n => n.repository.path = repo.path) then
    (.error .businessRuleViolation, p)
  else
    let node : LearningNode :=
      { node_id := nid, repository := repo, prerequisite_nodes := [],
        dependent_nodes := [], estimated_hours := repo.learning_hours_estimate }
    (.ok node, { p with nodes := p.nodes ++ [node] })

/-- `LearningPath.add_dependency`.  The source mutates the aggregate in
place and validates acyclicity only afterwards, so the function returns the
post-call state alongside the raised-or-returned value: on
`CircularDependencyError` the already-performed insertions remain. -/
def LearningPath.add_dependency (p : LearningPath) (src tgt : Nat)
    (dt : DependencyType) (st : DependencyStrength) (cb : Creator) :
    Except DomainError DependencyRelation × LearningPath :=
  match p.get_node_by_id src, p.get_node_by_id tgt with
  | some sn, some tn =>
    if sn.repository.repository_id = tn.repository.repository_id then
      (.error .businessRuleViolation, p)
    else
      let rel : DependencyRelation :=
        { source_repository_id := sn.repository.repository_id,
          target_repository_id := tn.repository.repository_id,
          dependency_type := dt, strength := st, created_by := cb }
      let p1 := { p with dependencies := setAddDep p.dependencies rel }
      if rel.is_blocking_dependency then
        match tn.add_prerequisite src with
        | .error e => (.error e, p1)
        | .ok tn2 =>
          let p2 := { p1 with
            nodes := p1.nodes.map
              (fun (n : LearningNode) => if n.node_id = tgt then tn2 else n) }
          match p2.topological_sort with
          | .error e => (.error e, p2)
          | .ok _ => (.ok rel, p2)
      else
        match p1.topological_sort with
        | .error e => (.error e, p1)
        | .ok _ => (.ok rel, p1)
  | _, _ => (.error .validationError, p)

/-! ## Graph builder (`src/application/services/graph_builder.py`) -/

/-- `GraphBuilderService._infer_dependency`: the four inference rules in
source order, returning the edge of the first rule that fires. -/
def infer_dependency (source target : Repository) :
    Option (DependencyType × DependencyStrength) :=
  if target.topics.any (fun t => t.parent_topics.any (fun pt =>
      source.topics.any (fun s => s.name = pt))) then
    some (.prerequisite, .strong)
  else if (match source.primary_skill, target.primary_skill with
    | some s, some t =>
      s.skill_type = t.skill_type && s.skill_level.idx < t.skill_level.idx
    | _, _ => false) then
    some (.prerequisite, .moderate)
  else if (match source.primary_skill, target.primary_skill with
    | some s, some t =>
      (SkillType.get_compatible_types t.skill_type).contains s.skill_type &&
        source.complexity_score < target.complexity_score
    | _, _ => false) then
    some (.recommended, .weak)
  else if source.complexity_score < 3 && target.complexity_score > 6 then
    some (.recommended, .weak)
  else none

/-- `GraphBuilderService._detect_dependencies`: run `_infer_dependency` on
every ordered pair with the source preceding the target in the pre-sorted
list. -/
def detect_dependencies (repos : List Repository) :
    List (Repository × Repository × DependencyType × DependencyStrength) :=
  (repos.enum.map (fun (p : Nat × Repository) =>
    (repos.drop (p.1 + 1)).filterMap (fun t =>
      (infer_dependency p.2 t).map (fun d => (p.2, t, d.1, d.2))))).flatten

/-- Python dict write `m[k] = v`: update in place when the key exists
(keeping its position), append otherwise. -/
def dictUpd {β : Type} (m : List (Nat × β)) (k : Nat) (v : β) : List (Nat × β) :=
  if m.any (fun kv => kv.1 = k) then
    m.map (fun kv => if kv.1 = k then (k, v) else kv)
  else m ++ [(k, v)]

/-- `GraphBuilderService.build`.  `path_id` and `node_id_base` stand for the
uuid4 draws of the run: the path aggregate's id and the ids handed to the
nodes in creation order.  Inference edges whose `add_dependency` raises are
caught and skipped, but the post-raise aggregate state is kept, exactly as
the `try/except` in the source keeps it. -/
def GraphBuilderService.build (learner_id name description : String)
    (repositories : List Repository) (allow_parallel : Bool) (max_parallel : Nat)
    (exclude_ids : List Nat) (path_id node_id_base : Nat) : LearningPath :=
  let filtered := repositories.filter
    (fun r => ¬ exclude_ids.contains r.repository_id)
  let presorted := stSort Repository.get_recommended_learning_order filtered
  let path0 : LearningPath :=
    { name := name, description := description, learner_id := learner_id,
      path_id := path_id, nodes := [], dependencies := [],
      allow_parallel_learning := allow_parallel, max_parallel_nodes := max_parallel }
  let step := presorted.enum.foldl
    (fun (st : LearningPath × List (Nat × Nat)) (ir : Nat × Repository) =>
      match st.1.add_repository ir.2 (node_id_base + ir.1) with
      | (.ok node, p') => (p', dictUpd st.2 ir.2.repository_id node.node_id)
      | (.error _, p') => (p', st.2))
    (path0, [])
  (detect_dependencies presorted).foldl
    (fun (p : LearningPath)
        (dep : Repository × Repository × DependencyType × DependencyStrength) =>
      match step.2.find? (fun kv => kv.1 = dep.1.repository_id),
            step.2.find? (fun kv => kv.1 = dep.2.1.repository_id) with
      | some s, some t => (p.add_dependency s.2 t.2 dep.2.2.1 dep.2.2.2 .system).2
      | _, _ => p)
    step.1

/-! ## Topological sorter service
(`src/application/services/topological_sorter.py`) -/

/-- The `removable` set of `TopologicalSorterService._resolve_cycles`:
strength WEAK, or type RELATED or ALTERNATIVE.  The source applies no
`created_by` filter and no cycle-participation filter. -/
def removableDeps (deps : List DependencyRelation) : List DependencyRelation :=
  deps.filter (fun d =>
    d.strength = DependencyStrength.weak ||
    d.dependency_type = DependencyType.related ||
    d.dependency_type = DependencyType.alternative)

/-- The `next(...)` lookup of `_resolve_cycles`: node id of the first node
whose repository is the edge's source, if any. -/
def srcNodeIdFor (p : LearningPath) (dep : DependencyRelation) : Option Nat :=
  (p.nodes.find?
    (fun n => n.repository.repository_id = dep.source_repository_id)).map
    (fun n => n.node_id)

/-- The per-node `prerequisite_nodes.discard(...)` of `_resolve_cycles`:
when the node's repository is the edge's target and the source node was
found, drop the source node id from the prerequisite set. -/
def discardPrereq (sid? : Option Nat) (target : Nat) (n : LearningNode) :
    LearningNode :=
  if n.repository.repository_id = target then
    match sid? with
    | some sid =>
      { n with prerequisite_nodes := n.prerequisite_nodes.filter (fun x => x ≠ sid) }
    | none => n
  else n

/-- One iteration of the `for dep in removable:` loop of `_resolve_cycles`:
discard the relation from the dependency set and discard the source node's
id from every matching target node's `prerequisite_nodes`. -/
def discardDep (p : LearningPath) (dep : DependencyRelation) : LearningPath :=
  { p with
    dependencies := p.dependencies.filter (fun e => ¬ e.sameKey dep),
    nodes := p.nodes.map
      (discardPrereq (srcNodeIdFor p dep) dep.target_repository_id) }

/-- `TopologicalSorterService._resolve_cycles`, with the unspecified Python
set-iteration order over the removable edges passed in as the explicit list
`order` (intended to be a permutation of `removableDeps p.dependencies`). -/
def resolve_cycles_with (p : LearningPath) (order : List DependencyRelation) :
    LearningPath :=
  order.foldl discardDep p

/-- `TopologicalSorterService.sort`: optimise; on `CircularDependencyError`
run one `_resolve_cycles` pass and retry, converting a second failure into
`InvalidLearningSequenceError`.  `order` is the set-iteration order used by
the recovery pass. -/
def TopologicalSorterService.sort_with (p : LearningPath)
    (order : List DependencyRelation) : Except DomainError LearningPath :=
  match p.optimize_learning_sequence with
  | .ok p' => .ok p'
  | .error _ =>
    match (resolve_cycles_with p order).optimize_learning_sequence with
    | .ok p' => .ok p'
    | .error _ => .error .invalidLearningSequence

/-! ## Milestone grouper (`src/application/services/milestone_grouper.py`) -/

/-- `MilestonePhase` enum from `application/dto/milestone_group.py`. -/
inductive MilestonePhase where
  | foundations | core_skills | advanced_systems | specialized_topics
deriving DecidableEq, Repr

/-- The `.value` string of a `MilestonePhase`. -/
def MilestonePhase.val : MilestonePhase → String
  | .foundations => "foundations"
  | .core_skills => "core_skills"
  | .advanced_systems => "advanced_systems"
  | .specialized_topics => "specialized_topics"

/-- `NodeItem` DTO from `application/dto/milestone_group.py`.  The
`forced_milestone` field models the `_forced_milestone` attribute that
`override_manager.py` attaches dynamically via `object.__setattr__`; a
freshly constructed item carries none. -/
structure NodeItem where
  node_id : Nat
  repository_id : Nat
  repository_name : String
  order_index : Int
  estimated_hours : Nat
  complexity_score : Rat
  skill_type : String
  skill_level : String
  prerequisites : List Nat
  is_overridden : Bool
  override_reason : String
  forced_milestone : Option MilestonePhase
deriving DecidableEq, Repr

/-- `MilestoneGroup` DTO from `application/dto/milestone_group.py`. -/
structure MilestoneGroup where
  phase : MilestonePhase
  nodes : List NodeItem
deriving DecidableEq, Repr

/-- The complexity-fallback branch of `MilestoneGrouperService._assign_phase`. -/
def complexityFallbackPhase (c : Rat) : MilestonePhase :=
  if c < 3 then .foundations
  else if c < 5 then .core_skills
  else if c < 7 then .advanced_systems
  else .specialized_topics

/-- `MilestoneGrouperService._assign_phase`: map the primary skill level
directly when a skill is set (every level returns, so the fall-through to
complexity is unreachable in that branch), otherwise fall back to
complexity thresholds. -/
def assign_phase (n : LearningNode) : MilestonePhase :=
  match n.repository.primary_skill with
  | some sk =>
    if sk.skill_level = SkillLevel.basic then .foundations
    else if sk.skill_level = SkillLevel.intermediate then .core_skills
    else if sk.skill_level = SkillLevel.advanced then .advanced_systems
    else if sk.skill_level = SkillLevel.expert then .specialized_topics
    else complexityFallbackPhase n.repository.complexity_score
  | none => complexityFallbackPhase n.repository.complexity_score

/-- `MilestoneGrouperService._node_to_item`. -/
def node_to_item (n : LearningNode) (order_index : Nat) : NodeItem :=
  { node_id := n.node_id, repository_id := n.repository.repository_id,
    repository_name := n.repository.name,
    order_index := Int.ofNat order_index,
    estimated_hours := n.estimated_hours,
    complexity_score := n.repository.complexity_score,
    skill_type :=
      match n.repository.primary_skill with
      | some s => s.skill_type.val
      | none => "unknown",
    skill_level :=
      match n.repository.primary_skill with
      | some s => s.skill_level.val
      | none => "basic",
    prerequisites := n.prerequisite_nodes,
    is_overridden := false, override_reason := "", forced_milestone := none }

/-- `buckets` dict of the grouper and override manager: one list per phase. -/
structure PhaseBuckets where
  foundations : List NodeItem
  core_skills : List NodeItem
  advanced_systems : List NodeItem
  specialized_topics : List NodeItem
deriving DecidableEq, Repr

/-- Bucket with four empty phase lists. -/
def emptyBuckets : PhaseBuckets := ⟨[], [], [], []⟩

/-- Read one phase list of a bucket. -/
def PhaseBuckets.get (b : PhaseBuckets) : MilestonePhase → List NodeItem
  | .foundations => b.foundations
  | .core_skills => b.core_skills
  | .advanced_systems => b.advanced_systems
  | .specialized_topics => b.specialized_topics

/-- Append one item to one phase list of a bucket. -/
def PhaseBuckets.push (b : PhaseBuckets) : MilestonePhase → NodeItem → PhaseBuckets
  | .foundations, x => { b with foundations := b.foundations ++ [x] }
  | .core_skills, x => { b with core_skills := b.core_skills ++ [x] }
  | .advanced_systems, x => { b with advanced_systems := b.advanced_systems ++ [x] }
  | .specialized_topics, x => { b with specialized_topics := b.specialized_topics ++ [x] }

/-- `_MILESTONE_ORDER` from `milestone_grouper.py`. -/
def milestoneOrderGrouper : List MilestonePhase :=
  [.foundations, .core_skills, .advanced_systems, .specialized_topics]

/-- `MilestoneGrouperService.group`: bucket each node by phase with its
enumeration index, then emit the non-empty buckets in milestone order. -/
def MilestoneGrouperService.group (sorted_nodes : List LearningNode) :
    List MilestoneGroup :=
  let buckets := sorted_nodes.enum.foldl
    (fun (b : PhaseBuckets) (p : Nat × LearningNode) =>
      b.push (assign_phase p.2) (node_to_item p.2 p.1))
    emptyBuckets
  (milestoneOrderGrouper.map
    (fun ph => MilestoneGroup.mk ph (buckets.get ph))).filter
    (fun g => ¬ g.nodes.isEmpty)

/-! ## Override manager (`src/application/services/override_manager.py`) -/

/-- `OverrideType` enum from `override_manager.py`. -/
inductive OverrideType where
  | reorder | skip | milestone | note
deriving DecidableEq, Repr

/-- `OverrideInstruction` dataclass from `override_manager.py`. -/
structure OverrideInstruction where
  repository_id : Nat
  override_type : OverrideType
  target_order : Option Int
  target_milestone : Option String
  reason : String
deriving DecidableEq, Repr

/-- Python `str.lower()`, written over the character list so it computes by
kernel reduction (ASCII case mapping, which is all the modelled phase and
skill names use). -/
def pyLower (s : String) : String := String.mk (s.data.map Char.toLower)

/-- `OverrideManagerService._parse_milestone`: lower-case the value and match
it against the phase enum; unknown or falsy values yield `None`. -/
def parse_milestone (v : Option String) : Option MilestonePhase :=
  match v with
  | none => none
  | some s =>
    if s = "" then none
    else
      match pyLower s with
      | "foundations" => some .foundations
      | "core_skills" => some .core_skills
      | "advanced_systems" => some .advanced_systems
      | "specialized_topics" => some .specialized_topics
      | _ => none

/-- `OverrideManagerService._find_original_phase`: phase of the first group
whose node list mentions the repository. -/
def find_original_phase (ms : List MilestoneGroup) (rid : Nat) :
    Option MilestonePhase :=
  (ms.find? (fun g => g.nodes.any (fun n => n.repository_id = rid))).map
    (fun g => g.phase)

/-- The replacement `NodeItem` built by the MILESTONE branch of
`OverrideManagerService.apply`: same data fields, `is_overridden = True`,
the supplied reason or the canonical default, and the `_forced_milestone`
attribute set to the parsed target phase. -/
def markMilestone (node : NodeItem) (ov : OverrideInstruction)
    (tgt : MilestonePhase) : NodeItem :=
  { node with
    is_overridden := true
    override_reason := if ov.reason = "" then "Moved to " ++ tgt.val else ov.reason
    forced_milestone := some tgt }

/-- The replacement `NodeItem` built by the REORDER branch of
`OverrideManagerService.apply`.  The source constructs a fresh dataclass
from the listed fields only, so a `_forced_milestone` attribute attached by
an earlier override is not carried over. -/
def markReorder (node : NodeItem) (ov : OverrideInstruction) : NodeItem :=
  { node with
    order_index :=
      match ov.target_order with
      | some t => t
      | none => node.order_index,
    is_overridden := true,
    override_reason := if ov.reason = "" then "Manual reorder" else ov.reason,
    forced_milestone := none }

/-- One iteration of the `for override in overrides:` loop of
`OverrideManagerService.apply` over the state (repo-keyed node dict,
`skip_ids` set). -/
def applyOneOverride (st : List (Nat × NodeItem) × List Nat)
    (ov : OverrideInstruction) : List (Nat × NodeItem) × List Nat :=
  match st.1.find? (fun kv => kv.1 = ov.repository_id) with
  | none => st
  | some kv =>
    match ov.override_type with
    | .skip =>
      (st.1, if st.2.contains ov.repository_id then st.2 else st.2 ++ [ov.repository_id])
    | .milestone =>
      match parse_milestone ov.target_milestone with
      | none => st
      | some tgt => (dictUpd st.1 ov.repository_id (markMilestone kv.2 ov tgt), st.2)
    | .reorder => (dictUpd st.1 ov.repository_id (markReorder kv.2 ov), st.2)
    | .note => st

/-- Modelled from the spec: `override_manager.py` line 147 imports a
`_MILESTONE_ORDER` constant from `application/dto/milestone_group.py`, but
that module does not define such a name, so the constant the import refers
to is missing from the source.  The spec fixes the phase order it stands
for: foundations → core_skills → advanced_systems → specialized_topics. -/
def dtoMilestoneOrder : List MilestonePhase :=
  [.foundations, .core_skills, .advanced_systems, .specialized_topics]

/-- `OverrideManagerService.apply`: early-return on an empty override list;
otherwise build the repo-keyed dict of flattened items, run the override
loop, re-bucket every non-skipped dict value into its forced or original
phase, and emit the non-empty buckets in phase order, each stably sorted by
`order_index`. -/
def OverrideManagerService.apply (milestones : List MilestoneGroup)
    (overrides : List OverrideInstruction) : List MilestoneGroup :=
  if overrides.isEmpty then milestones
  else
    let flat := (milestones.map (fun g => g.nodes)).flatten
    let m0 := flat.foldl (fun m n => dictUpd m n.repository_id n) []
    let st := overrides.foldl applyOneOverride (m0, [])
    let buckets := (st.1.map (fun kv => kv.2)).foldl
      (fun (b : PhaseBuckets) (n : NodeItem) =>
        if st.2.contains n.repository_id then b
        else
          match n.forced_milestone with
          | some ph => b.push ph n
          | none =>
            match find_original_phase milestones n.repository_id with
            | some ph => b.push ph n
            | none => b)
      emptyBuckets
    (dtoMilestoneOrder.map (fun ph =>
      MilestoneGroup.mk ph (stSort (fun n => n.order_index) (buckets.get ph)))).filter
      (fun g => ¬ g.nodes.isEmpty)

/-! ## Path generator (`src/application/services/path_generator_service.py`)

The response model keeps every field of `LearningPathResponse` except the
timestamps (`generated_at`, `last_optimized_at`) and the elapsed-time stat
`generation_time_ms`; of `generation_stats` it keeps the two input-derived
counters.  A freshly generated path has no completed nodes, so
`completion_percentage` is the `0.0` that `_recalculate_metrics` computes. -/

/-- `GenerateLearningPathRequest` DTO from
`application/dto/learning_path_request.py`. -/
structure GenerateLearningPathRequest where
  learner_id : String
  name : String
  description : String
  target_skill_types : List String
  target_skill_level : Option String
  max_repositories : Option Nat
  allow_parallel_learning : Bool
  max_parallel_nodes : Nat
  exclude_repository_ids : List Nat
deriving DecidableEq, Repr

/-- `LearningPathResponse` DTO, without timestamp and elapsed-time fields. -/
structure LearningPathResponse where
  path_id : Nat
  learner_id : String
  name : String
  description : String
  status : String
  milestones : List MilestoneGroup
  total_repositories : Nat
  total_estimated_hours : Nat
  completion_percentage : Rat
  warnings : List String
  repositories_considered : Nat
  repositories_included : Nat
deriving DecidableEq, Repr

/-- `PathGeneratorService._filter_by_skill`: with a non-empty target list,
keep repositories whose primary skill type value is targeted; repositories
without a primary skill always pass. -/
def filter_by_skill (repos : List Repository) (targets : List String) :
    List Repository :=
  if targets.isEmpty then repos
  else
    repos.filter (fun r =>
      match r.primary_skill with
      | none => true
      | some s => (targets.map pyLower).contains s.skill_type.val)

/-- `PathGeneratorService.generate`: the full pipeline.  `path_id` and
`node_id_base` stand for the run's uuid4 draws, and `order_choice` for the
run's Python set-iteration order over the removable edges during cycle
recovery (it is handed the removable list and returns it in iteration
order).  Warning texts are abbreviated to their stable prefixes; no claim
reads their exact wording. -/
def PathGeneratorService.generate (request : GenerateLearningPathRequest)
    (repositories : List Repository) (pending_overrides : List OverrideInstruction)
    (path_id node_id_base : Nat)
    (order_choice : List DependencyRelation → List DependencyRelation) :
    Except DomainError LearningPathResponse :=
  let filtered := filter_by_skill repositories request.target_skill_types
  let w1 :=
    if filtered.length < repositories.length then
      ["Filtered to " ++ toString filtered.length ++ " repositories matching skill types"]
    else []
  let capActive :=
    match request.max_repositories with
    | some n => n ≠ 0 && filtered.length > n
    | none => false
  let capped :=
    if capActive then filtered.take (request.max_repositories.getD 0) else filtered
  let w2 :=
    if capActive then
      ["Capped to " ++ toString (request.max_repositories.getD 0) ++
        " repositories (max_repositories limit)."]
    else []
  let path := GraphBuilderService.build request.learner_id request.name
    request.description capped request.allow_parallel_learning
    request.max_parallel_nodes request.exclude_repository_ids path_id node_id_base
  let w3 :=
    if path.nodes.isEmpty then
      ["No repositories available after filtering and exclusions."]
    else []
  let warnings := w1 ++ w2 ++ w3
  (TopologicalSorterService.sort_with path
      (order_choice (removableDeps path.dependencies))).map (fun sortedPath =>
    let milestones := MilestoneGrouperService.group sortedPath.nodes
    let milestones2 :=
      if pending_overrides.isEmpty then milestones
      else OverrideManagerService.apply milestones pending_overrides
    { path_id := path.path_id, learner_id := path.learner_id,
      name := path.name, description := request.description,
      status := "draft", milestones := milestones2,
      total_repositories := sortedPath.total_repositories,
      total_estimated_hours := sortedPath.total_estimated_hours,
      completion_percentage := 0, warnings := warnings,
      repositories_considered := repositories.length,
      repositories_included := sortedPath.nodes.length })

/-! ## Spec-side definitions for the refinement claims -/

/-- Spec rule 1: a topic of B lists a topic of A among its parents →
A → B prerequisite/strong. -/
def specRuleTopic (a b : Repository) :
    Option (DependencyType × DependencyStrength) :=
  if ((b.topics.map (fun t => t.parent_topics)).flatten.any
      (fun pt => (a.topics.map (fun t => t.name)).contains pt)) then
    some (.prerequisite, .strong)
  else none

/-- Spec ordering of skill levels: basic < intermediate < advanced < expert. -/
def specLevelRank : SkillLevel → Nat
  | .basic => 0
  | .intermediate => 1
  | .advanced => 2
  | .expert => 3

/-- Spec rule 2: shared primary skill type with A's level strictly lower →
A → B prerequisite/moderate. -/
def specRuleSkill (a b : Repository) :
    Option (DependencyType × DependencyStrength) :=
  match a.primary_skill, b.primary_skill with
  | some sa, some sb =>
    if sa.skill_type = sb.skill_type ∧
        specLevelRank sa.skill_level < specLevelRank sb.skill_level then
      some (.prerequisite, .moderate)
    else none
  | _, _ => none

/-- Spec rule 3: A's skill type in B's compatibility set and A strictly less
complex than B → A → B recommended/weak. -/
def specRuleCompat (a b : Repository) :
    Option (DependencyType × DependencyStrength) :=
  match a.primary_skill, b.primary_skill with
  | some sa, some sb =>
    if sa.skill_type ∈ SkillType.get_compatible_types sb.skill_type ∧
        a.complexity_score < b.complexity_score then
      some (.recommended, .weak)
    else none
  | _, _ => none

/-- Spec rule 4: complexity gap (A below 3.0, B above 6.0) →
A → B recommended/weak. -/
def specRuleGap (a b : Repository) :
    Option (DependencyType × DependencyStrength) :=
  if a.complexity_score < 3 ∧ b.complexity_score > 6 then
    some (.recommended, .weak)
  else none

/-- The spec's rule order, checked first-match-wins. -/
def specInferFirstMatch (a b : Repository) :
    Option (DependencyType × DependencyStrength) :=
  [specRuleTopic, specRuleSkill, specRuleCompat, specRuleGap].findSome?
    (fun rule => rule a b)

/-- Spec phase for a set primary skill: the direct skill-level table. -/
def specLevelPhase : SkillLevel → MilestonePhase
  | .basic => .foundations
  | .intermediate => .core_skills
  | .advanced => .advanced_systems
  | .expert => .specialized_topics

/-- Spec phase fallback on complexity: thresholds 3 / 5 / 7. -/
def specComplexityPhase (c : Rat) : MilestonePhase :=
  if c < 3 then .foundations
  else if c < 5 then .core_skills
  else if c < 7 then .advanced_systems
  else .specialized_topics

/-! ## Concrete fixtures -/

/-- Backend/basic repository, complexity 5. -/
def repoA : Repository :=
  { repository_id := 1, name := "alpha", path := "/r/alpha",
    primary_skill := some ⟨.backend, .basic⟩, topics := [],
    complexity_score := 5, learning_hours_estimate := 10 }

/-- Backend/basic repository, complexity 2. -/
def repoB : Repository :=
  { repository_id := 2, name := "beta", path := "/r/beta",
    primary_skill := some ⟨.backend, .basic⟩, topics := [],
    complexity_score := 2, learning_hours_estimate := 12 }

/-- Skill-less repository, complexity 1. -/
def repoC : Repository :=
  { repository_id := 3, name := "gamma", path := "/r/gamma",
    primary_skill := none, topics := [],
    complexity_score := 1, learning_hours_estimate := 3 }

/-- Node for `repoA` with no prerequisites. -/
def nodeA : LearningNode := ⟨101, repoA, [], [], 10⟩

/-- Node for `repoB` whose prerequisites contain `nodeA`, as inserted by a
blocking A → B edge. -/
def nodeB : LearningNode := ⟨102, repoB, [101], [], 12⟩

/-- Blocking relation A → B (prerequisite/strong, system-created). -/
def relAB : DependencyRelation := ⟨1, 2, .prerequisite, .strong, .system⟩

/-- Path whose dependency set holds the blocking edge A → B, consistent with
`nodeB`'s prerequisite set. -/
def pathC1 : LearningPath :=
  { name := "p1", description := "", learner_id := "u1", path_id := 7,
    nodes := [nodeA, nodeB], dependencies := [relAB],
    allow_parallel_learning := false, max_parallel_nodes := 3 }

/-! ## C1 -/

/-- C1: the claim states that after `optimize_learning_sequence` every
blocking dependency `a → b` has `index(a) < index(b)` in the node sequence.
The code violates it: `_apply_learning_heuristics` re-sorts each skill group
by ascending complexity with no topological check, so on `pathC1` — where
the blocking edge A → B coexists with `complexity(A) > complexity(B)` — the
optimised order becomes [B, A], placing the source after the target. -/
theorem C1_heuristics_violate_blocking_order :
    pathC1.optimize_learning_sequence =
      Except.ok { pathC1 with nodes := [nodeB, nodeA] } ∧
    relAB ∈ pathC1.dependencies ∧
    relAB.is_blocking_dependency = true ∧
    ([nodeB, nodeA].findIdx
        (fun n => n.repository.repository_id = relAB.source_repository_id) >
      [nodeB, nodeA].findIdx
        (fun n => n.repository.repository_id = relAB.target_repository_id)) := by
  decide

/-! ## C2 -/

/-- Node for `repoA` with the cyclic prerequisite on `nodeB2`. -/
def nodeA2 : LearningNode := ⟨201, repoA, [202], [], 10⟩

/-- Node for `repoB` with the cyclic prerequisite on `nodeA2`. -/
def nodeB2 : LearningNode := ⟨202, repoB, [201], [], 12⟩

/-- Node for `repoC`, no prerequisites. -/
def nodeC2 : LearningNode := ⟨203, repoC, [], [], 3⟩

/-- Blocking relation B → A closing the 2-cycle. -/
def relBA2 : DependencyRelation := ⟨2, 1, .prerequisite, .strong, .system⟩

/-- User-created weak edge C → A, not on any cycle. -/
def relCA2 : DependencyRelation := ⟨3, 1, .recommended, .weak, .user⟩

/-- Path with a blocking 2-cycle A ↔ B plus the off-cycle user-created weak
edge C → A. -/
def pathC2 : LearningPath :=
  { name := "p2", description := "", learner_id := "u1", path_id := 8,
    nodes := [nodeA2, nodeB2, nodeC2],
    dependencies := [relAB, relBA2, relCA2],
    allow_parallel_learning := false, max_parallel_nodes := 3 }

/-- C2: the claim states that cycle recovery removes only system-created
removable edges that participate in the witness cycle, and that user-created
relations survive.  The code's `_resolve_cycles` removes every weak or
related/alternative edge with no `created_by` check and no
cycle-participation check: on `pathC2` it removes the user-created weak edge
C → A even though that edge lies on no cycle, while the actual cycle (two
strong prerequisite edges) is untouched, so the retry still fails. -/
theorem C2_recovery_removes_user_created_edge :
    relCA2.created_by = Creator.user ∧
    relCA2 ∈ pathC2.dependencies ∧
    relCA2 ∉ (resolve_cycles_with pathC2 (removableDeps pathC2.dependencies)).dependencies ∧
    relAB ∈ (resolve_cycles_with pathC2 (removableDeps pathC2.dependencies)).dependencies ∧
    relBA2 ∈ (resolve_cycles_with pathC2 (removableDeps pathC2.dependencies)).dependencies ∧
    TopologicalSorterService.sort_with pathC2 (removableDeps pathC2.dependencies) =
      .error .invalidLearningSequence := by
  decide

/-! ## C3 -/

/-- Node for `repoA`, no prerequisites yet. -/
def nodeA3 : LearningNode := ⟨301, repoA, [], [], 10⟩

/-- Node for `repoB` with the prerequisite on `nodeA3` from the existing
blocking edge A → B. -/
def nodeB3 : LearningNode := ⟨302, repoB, [301], [], 12⟩

/-- Path holding the blocking edge A → B, about to receive B → A. -/
def pathC3 : LearningPath :=
  { name := "p3", description := "", learner_id := "u1", path_id := 9,
    nodes := [nodeA3, nodeB3], dependencies := [relAB],
    allow_parallel_learning := false, max_parallel_nodes := 3 }

/-- C3: the claim states that `add_dependency` is atomic on error — after a
circular-dependency raise the dependency set and the target's
`prerequisite_nodes` are unchanged.  The code mutates first and validates
afterwards with no rollback: adding B → A to `pathC3` raises
`CircularDependencyError`, yet the post-call state still contains the B → A
relation and `nodeA3` has gained the prerequisite 302. -/
theorem C3_add_dependency_not_atomic_on_error :
    (pathC3.add_dependency 302 301 .prerequisite .strong .system).1 =
      .error .circularDependency ∧
    (⟨2, 1, .prerequisite, .strong, .system⟩ : DependencyRelation) ∈
      (pathC3.add_dependency 302 301 .prerequisite .strong .system).2.dependencies ∧
    ((pathC3.add_dependency 302 301 .prerequisite .strong .system).2.get_node_by_id 301).map
      (fun n => n.prerequisite_nodes) = some [302] ∧
    (pathC3.add_dependency 302 301 .prerequisite .strong .system).2 ≠ pathC3 := by
  decide

/-! ## C4 -/

theorem topicCond_eq (a b : Repository) :
    (b.topics.any (fun t => t.parent_topics.any (fun pt =>
      a.topics.any (fun s => s.name = pt)))) =
    ((b.topics.map (fun t => t.parent_topics)).flatten.any
      (fun pt => (a.topics.map (fun t => t.name)).contains pt)) := by
  rw [Bool.eq_iff_iff]
  simp only [List.any_eq_true, List.mem_flatten, List.mem_map, List.contains_eq_any_beq,
    beq_iff_eq, decide_eq_true_eq]
  constructor
  · rintro ⟨t, ht, pt, hpt, s, hs, hname⟩
    exact ⟨pt, ⟨t.parent_topics, ⟨t, ht, rfl⟩, hpt⟩, s.name, ⟨s, hs, rfl⟩, hname.symm⟩
  · rintro ⟨pt, ⟨ps, ⟨t, ht, rfl⟩, hpt⟩, nm, ⟨s, hs, rfl⟩, hname⟩
    exact ⟨t, ht, pt, hpt, s, hs, hname.symm⟩

theorem skillLevel_idx_eq_specLevelRank (l : SkillLevel) :
    l.idx = specLevelRank l := by cases l <;> rfl

/-- C4: dependency inference checks the four rules in fixed order and emits
at most one edge, the edge of the first matching rule — topic prerequisite
(prerequisite/strong), then same-type skill progression
(prerequisite/moderate), then compatible-type progression with lower
complexity (recommended/weak), then complexity gap (recommended/weak),
else nothing.  `_infer_dependency` coincides with this first-match reading
of the spec on every pair of repositories. -/
theorem C4_infer_dependency_matches_spec_rules (a b : Repository) :
    infer_dependency a b = specInferFirstMatch a b := by
  unfold infer_dependency specInferFirstMatch specRuleTopic specRuleSkill
    specRuleCompat specRuleGap
  simp only [List.findSome?_cons, List.findSome?_nil]
  rw [topicCond_eq]
  by_cases h1 : ((b.topics.map (fun t => t.parent_topics)).flatten.any
      (fun pt => (a.topics.map (fun t => t.name)).contains pt)) = true
  · simp only [if_pos h1]
  · cases ha : a.primary_skill with
    | none =>
      cases hb : b.primary_skill <;>
        by_cases h4 : a.complexity_score < 3 ∧ b.complexity_score > 6 <;>
        simp [h1, h4, Bool.and_eq_true, decide_eq_true_eq] <;>
        split_ifs <;> rfl
    | some sa =>
      cases hb : b.primary_skill with
      | none =>
        by_cases h4 : a.complexity_score < 3 ∧ b.complexity_score > 6 <;>
          simp [h1, h4, Bool.and_eq_true, decide_eq_true_eq] <;>
          split_ifs <;> rfl
      | some sb =>
        by_cases h2 : sa.skill_type = sb.skill_type ∧
            specLevelRank sa.skill_level < specLevelRank sb.skill_level
        · simp [h1, h2, Bool.and_eq_true, decide_eq_true_eq,
            skillLevel_idx_eq_specLevelRank] <;>
          split_ifs <;> rfl
        · by_cases h3 : sa.skill_type ∈ SkillType.get_compatible_types sb.skill_type ∧
              a.complexity_score < b.complexity_score
          · simp [h1, h2, h3, Bool.and_eq_true, decide_eq_true_eq,
              skillLevel_idx_eq_specLevelRank, List.elem_iff] <;>
            split_ifs <;> rfl
          · by_cases h4 : a.complexity_score < 3 ∧ b.complexity_score > 6 <;>
              simp [h1, h2, h3, h4, Bool.and_eq_true, decide_eq_true_eq,
                skillLevel_idx_eq_specLevelRank, List.elem_iff] <;>
              split_ifs <;> rfl

/-! ## C5 -/

/-- C5: milestone phase assignment is skill-first — with a primary skill set
the phase is the direct image of the skill level, independent of complexity;
without one the complexity thresholds 3 / 5 / 7 decide. -/
theorem C5_assign_phase_skill_first (n : LearningNode) :
    assign_phase n =
      match n.repository.primary_skill with
      | some sk => specLevelPhase sk.skill_level
      | none => specComplexityPhase n.repository.complexity_score := by
  unfold assign_phase specLevelPhase specComplexityPhase complexityFallbackPhase
  match h : n.repository.primary_skill with
  | none => rfl
  | some sk =>
    obtain ⟨t, l⟩ := sk
    cases l <;> simp

/-! ## C6 -/

/-- Backend/expert repository with low complexity. -/
def repoExp : Repository :=
  { repository_id := 4, name := "delta", path := "/r/delta",
    primary_skill := some ⟨.backend, .expert⟩, topics := [],
    complexity_score := 1, learning_hours_estimate := 5 }

/-- Backend/basic repository with higher complexity. -/
def repoBas : Repository :=
  { repository_id := 5, name := "epsilon", path := "/r/epsilon",
    primary_skill := some ⟨.backend, .basic⟩, topics := [],
    complexity_score := 5, learning_hours_estimate := 5 }

/-- Node for `repoExp`. -/
def nodeExp : LearningNode := ⟨401, repoExp, [], [], 5⟩

/-- Node for `repoBas`. -/
def nodeBas : LearningNode := ⟨402, repoBas, [], [], 5⟩

/-- C6 counterexample: the claim states that concatenating the phase node
lists in phase order yields exactly the input sequence.  On the dependency-
free sorted input [expert-node, basic-node] the grouper emits foundations
before specialized topics, so the concatenation reverses the input order. -/
theorem C6_concatenation_reorders_phase_mixed_input :
    (((MilestoneGrouperService.group [nodeExp, nodeBas]).map
      (fun g => g.nodes)).flatten).map (fun x => x.node_id) ≠
    ([nodeExp, nodeBas].map (fun n => n.node_id)) := by
  decide

theorem push_get (b : PhaseBuckets) (ph' ph : MilestonePhase) (x : NodeItem) :
    (b.push ph' x).get ph =
      if ph' = ph then b.get ph ++ [x] else b.get ph := by
  cases ph' <;> cases ph <;>
    simp [PhaseBuckets.push, PhaseBuckets.get]

theorem grouper_fold_get (l : List (Nat × LearningNode)) :
    ∀ b ph,
      (l.foldl (fun (b : PhaseBuckets) (p : Nat × LearningNode) =>
        b.push (assign_phase p.2) (node_to_item p.2 p.1)) b).get ph =
      b.get ph ++
        (l.filter (fun p => assign_phase p.2 = ph)).map
          (fun p => node_to_item p.2 p.1) := by
  induction l with
  | nil => intro b ph; simp
  | cons q l ih =>
    intro b ph
    rw [List.foldl_cons, ih, List.filter_cons]
    by_cases h : assign_phase q.2 = ph
    · simp [h, push_get]
    · simp [h, push_get]

theorem four_way_phase_partition_perm {α β : Type} (φ : α → MilestonePhase)
    (f : α → β) (l : List α) :
    ((l.filter (fun x => φ x = MilestonePhase.foundations)).map f ++
     ((l.filter (fun x => φ x = MilestonePhase.core_skills)).map f ++
      ((l.filter (fun x => φ x = MilestonePhase.advanced_systems)).map f ++
       (l.filter (fun x => φ x = MilestonePhase.specialized_topics)).map f))).Perm
      (l.map f) := by
  induction l with
  | nil => simp
  | cons x xs ih =>
    simp only [List.filter_cons]
    cases hx : φ x
    case foundations =>
      simp only [hx, reduceIte, List.map_cons, List.cons_append]
      exact ih.cons (f x)
    case core_skills =>
      simp only [hx, reduceIte, List.map_cons, List.cons_append]
      exact List.perm_middle.trans (ih.cons (f x))
    case advanced_systems =>
      simp only [hx, reduceIte, List.map_cons, List.cons_append]
      exact (List.perm_middle.append_left _).trans
        (List.perm_middle.trans (ih.cons (f x)))
    case specialized_topics =>
      simp only [hx, reduceIte, List.map_cons, List.cons_append]
      exact ((List.perm_middle.append_left _).append_left _).trans
        ((List.perm_middle.append_left _).trans
          (List.perm_middle.trans (ih.cons (f x))))

theorem flatten_filter_nonempty (gs : List MilestoneGroup) :
    (((gs.filter (fun g => ¬ g.nodes.isEmpty)).map (fun g => g.nodes)).flatten) =
    ((gs.map (fun g => g.nodes)).flatten) := by
  induction gs with
  | nil => rfl
  | cons g rest ih =>
    rw [List.filter_cons]
    by_cases h : g.nodes.isEmpty
    · have hnil : g.nodes = [] := List.isEmpty_iff.mp h
      rw [if_neg (by simp [h]), ih, List.map_cons, List.flatten_cons, hnil,
        List.nil_append]
    · rw [if_pos (by simp [h]), List.map_cons, List.map_cons, List.flatten_cons,
        List.flatten_cons, ih]

theorem group_any_enum (ns : List LearningNode) (ph : MilestonePhase) :
    (ns.enum.any (fun p => assign_phase p.2 = ph)) =
    (ns.any (fun n => assign_phase n = ph)) := by
  rw [Bool.eq_iff_iff]
  simp only [List.any_eq_true, decide_eq_true_eq]
  constructor
  · rintro ⟨p, hp, h⟩
    rw [List.mem_enum_iff_getElem?] at hp
    obtain ⟨hlt, hget⟩ := List.getElem?_eq_some.mp hp
    exact ⟨p.2, hget ▸ List.getElem_mem hlt, h⟩
  · rintro ⟨n, hn, h⟩
    obtain ⟨i, hi, rfl⟩ := List.mem_iff_getElem.mp hn
    refine ⟨(i, ns[i]), ?_, h⟩
    rw [List.mem_enum_iff_getElem?]
    exact List.getElem?_eq_getElem hi

theorem group_bucket_get (ns : List LearningNode) (ph : MilestonePhase) :
    (ns.enum.foldl (fun (b : PhaseBuckets) (p : Nat × LearningNode) =>
      b.push (assign_phase p.2) (node_to_item p.2 p.1)) emptyBuckets).get ph =
    (ns.enum.filter (fun p => assign_phase p.2 = ph)).map
      (fun p => node_to_item p.2 p.1) := by
  rw [grouper_fold_get]
  cases ph <;> rfl

theorem group_eq_filtered_map (ns : List LearningNode) :
    MilestoneGrouperService.group ns =
      (milestoneOrderGrouper.filter
        (fun ph => ns.any (fun n => assign_phase n = ph))).map
        (fun ph => MilestoneGroup.mk ph
          ((ns.enum.filter (fun p => assign_phase p.2 = ph)).map
            (fun p => node_to_item p.2 p.1))) := by
  unfold MilestoneGrouperService.group
  rw [List.filter_map]
  have hpred : ∀ ph ∈ milestoneOrderGrouper,
      ((fun g => decide (¬ g.nodes.isEmpty)) ∘ (fun ph => MilestoneGroup.mk ph
        ((ns.enum.foldl (fun (b : PhaseBuckets) (p : Nat × LearningNode) =>
          b.push (assign_phase p.2) (node_to_item p.2 p.1)) emptyBuckets).get ph))) ph =
      (ns.any (fun n => assign_phase n = ph)) := by
    intro ph _
    rw [Bool.eq_iff_iff]
    simp only [Function.comp_apply, decide_eq_true_eq, group_bucket_get,
      ← group_any_enum ns ph, List.any_eq_true, List.isEmpty_iff,
      List.map_eq_nil_iff, List.filter_eq_nil_iff, decide_eq_true_eq]
    push_neg
    constructor
    · rintro ⟨p, hp, hph⟩
      exact ⟨p, hp, hph⟩
    · rintro ⟨p, hp, hph⟩
      exact ⟨p, hp, hph⟩
  rw [List.filter_congr hpred]
  refine List.map_congr_left ?_
  intro ph _
  rw [group_bucket_get]

theorem group_flatten_perm_items (ns : List LearningNode) :
    (((MilestoneGrouperService.group ns).map (fun g => g.nodes)).flatten).Perm
      (ns.enum.map (fun p => node_to_item p.2 p.1)) := by
  unfold MilestoneGrouperService.group
  rw [flatten_filter_nonempty, List.map_map]
  simp only [milestoneOrderGrouper, List.map_cons, List.map_nil,
    Function.comp_apply, List.flatten_cons, List.flatten_nil, group_bucket_get,
    List.append_nil]
  exact four_way_phase_partition_perm (fun p => assign_phase p.2)
    (fun p => node_to_item p.2 p.1) ns.enum

/-- C6, amended: the grouper output is the stable partition of the input by
phase — each emitted group's node list is exactly the input restricted (in
order, with enumeration indexes) to that phase, the emitted phases are
exactly the inhabited ones in the fixed order foundations → core_skills →
advanced_systems → specialized_topics, and the concatenation of the phase
lists is a permutation of the input items (equal as a multiset, not in
general equal as a sequence). -/
theorem C6_amended_group_is_stable_phase_partition (ns : List LearningNode) :
    MilestoneGrouperService.group ns =
      (milestoneOrderGrouper.filter
        (fun ph => ns.any (fun n => assign_phase n = ph))).map
        (fun ph => MilestoneGroup.mk ph
          ((ns.enum.filter (fun p => assign_phase p.2 = ph)).map
            (fun p => node_to_item p.2 p.1))) ∧
    (((MilestoneGrouperService.group ns).map (fun g => g.nodes)).flatten).Perm
      (ns.enum.map (fun p => node_to_item p.2 p.1)) :=
  ⟨group_eq_filtered_map ns, group_flatten_perm_items ns⟩

/-! ## Override-manager infrastructure lemmas -/

theorem dictUpd_of_not_mem_keys {β : Type} (m : List (Nat × β)) (k : Nat) (v : β)
    (h : k ∉ m.map Prod.fst) : dictUpd m k v = m ++ [(k, v)] := by
  unfold dictUpd
  rw [if_neg]
  simp only [List.any_eq_true, decide_eq_true_eq, not_exists, not_and]
  intro kv hkv hk
  exact h (hk ▸ List.mem_map_of_mem Prod.fst hkv)

theorem dictUpd_keys_of_mem {β : Type} (m : List (Nat × β)) (k : Nat) (v : β)
    (h : k ∈ m.map Prod.fst) : (dictUpd m k v).map Prod.fst = m.map Prod.fst := by
  unfold dictUpd
  rw [if_pos]
  · rw [List.map_map]
    refine List.map_congr_left ?_
    intro kv _
    by_cases hk : kv.1 = k <;> simp [hk]
  · obtain ⟨kv, hkv, hk⟩ := List.mem_map.mp h
    exact List.any_eq_true.mpr ⟨kv, hkv, by simp [hk]⟩

theorem dictUpd_mem {β : Type} (m : List (Nat × β)) (k : Nat) (v : β)
    (kv : Nat × β) (h : kv ∈ dictUpd m k v) : kv = (k, v) ∨ kv ∈ m := by
  unfold dictUpd at h
  by_cases hc : m.any (fun kv => kv.1 = k)
  · rw [if_pos hc] at h
    obtain ⟨kv', hkv', heq⟩ := List.mem_map.mp h
    by_cases hk : kv'.1 = k
    · rw [if_pos hk] at heq
      exact Or.inl heq.symm
    · rw [if_neg hk] at heq
      exact Or.inr (heq ▸ hkv')
  · rw [if_neg hc] at h
    rcases List.mem_append.mp h with hm | hs
    · exact Or.inr hm
    · exact Or.inl (List.mem_singleton.mp hs)

theorem buildMap_eq (flat : List NodeItem) :
    ∀ acc : List (Nat × NodeItem),
      ((acc.map Prod.fst ++ flat.map (fun n => n.repository_id)).Nodup) →
      flat.foldl (fun m n => dictUpd m n.repository_id n) acc =
        acc ++ flat.map (fun n => (n.repository_id, n)) := by
  induction flat with
  | nil => intro acc _; simp
  | cons n rest ih =>
    intro acc hnd
    rw [List.foldl_cons]
    have hk : n.repository_id ∉ acc.map Prod.fst := by
      intro hmem
      have hdisj := List.disjoint_of_nodup_append hnd
      exact hdisj hmem (by simp)
    rw [dictUpd_of_not_mem_keys acc n.repository_id n hk]
    rw [ih]
    · simp
    · have hkeys : (acc ++ [(n.repository_id, n)]).map Prod.fst =
          acc.map Prod.fst ++ [n.repository_id] := by simp
      rw [hkeys, List.append_assoc, List.singleton_append]
      simpa using hnd


theorem applyOneOverride_keys (st : List (Nat × NodeItem) × List Nat)
    (ov : OverrideInstruction) :
    (applyOneOverride st ov).1.map Prod.fst = st.1.map Prod.fst := by
  unfold applyOneOverride
  cases hf : st.1.find? (fun kv => kv.1 = ov.repository_id) with
  | none => rfl
  | some kv =>
    have hk : ov.repository_id ∈ st.1.map Prod.fst := by
      have hm := List.mem_of_find?_eq_some hf
      have hp : kv.1 = ov.repository_id := by simpa using List.find?_some hf
      exact hp ▸ List.mem_map_of_mem Prod.fst hm
    cases ov.override_type with
    | skip => rfl
    | milestone =>
      cases parse_milestone ov.target_milestone with
      | none => rfl
      | some tgt => exact dictUpd_keys_of_mem _ _ _ hk
    | reorder => exact dictUpd_keys_of_mem _ _ _ hk
    | note => rfl

theorem applyLoop_keys (ovs : List OverrideInstruction) :
    ∀ st : List (Nat × NodeItem) × List Nat,
      (ovs.foldl applyOneOverride st).1.map Prod.fst = st.1.map Prod.fst := by
  induction ovs with
  | nil => intro st; rfl
  | cons ov rest ih =>
    intro st
    rw [List.foldl_cons, ih, applyOneOverride_keys]

theorem markMilestone_repository_id (node : NodeItem) (ov : OverrideInstruction)
    (tgt : MilestonePhase) :
    (markMilestone node ov tgt).repository_id = node.repository_id := rfl

theorem markReorder_repository_id (node : NodeItem) (ov : OverrideInstruction) :
    (markReorder node ov).repository_id = node.repository_id := rfl

theorem applyOneOverride_rid (st : List (Nat × NodeItem) × List Nat)
    (ov : OverrideInstruction)
    (h : ∀ kv ∈ st.1, kv.2.repository_id = kv.1) :
    ∀ kv ∈ (applyOneOverride st ov).1, kv.2.repository_id = kv.1 := by
  unfold applyOneOverride
  cases hf : st.1.find? (fun kv => kv.1 = ov.repository_id) with
  | none => exact h
  | some kv0 =>
    have hp : kv0.1 = ov.repository_id := by simpa using List.find?_some hf
    have hv : kv0.2.repository_id = kv0.1 := h kv0 (List.mem_of_find?_eq_some hf)
    cases ov.override_type with
    | skip => exact h
    | note => exact h
    | milestone =>
      cases parse_milestone ov.target_milestone with
      | none => exact h
      | some tgt =>
        intro kv hkv
        rcases dictUpd_mem _ _ _ kv hkv with heq | hm
        · rw [heq]
          simpa [markMilestone_repository_id] using hv.trans hp
        · exact h kv hm
    | reorder =>
      intro kv hkv
      rcases dictUpd_mem _ _ _ kv hkv with heq | hm
      · rw [heq]
        simpa [markReorder_repository_id] using hv.trans hp
      · exact h kv hm

theorem applyLoop_rid (ovs : List OverrideInstruction) :
    ∀ st : List (Nat × NodeItem) × List Nat,
      (∀ kv ∈ st.1, kv.2.repository_id = kv.1) →
      ∀ kv ∈ (ovs.foldl applyOneOverride st).1, kv.2.repository_id = kv.1 := by
  induction ovs with
  | nil => intro st h; exact h
  | cons ov rest ih =>
    intro st h
    rw [List.foldl_cons]
    exact ih _ (applyOneOverride_rid st ov h)

theorem applyOneOverride_skips (st : List (Nat × NodeItem) × List Nat)
    (ov : OverrideInstruction) (r : Nat) :
    r ∈ (applyOneOverride st ov).2 ↔
      r ∈ st.2 ∨ (ov.override_type = OverrideType.skip ∧ ov.repository_id = r ∧
        r ∈ st.1.map Prod.fst) := by
  unfold applyOneOverride
  cases hf : st.1.find? (fun kv => kv.1 = ov.repository_id) with
  | none =>
    have hno : ov.repository_id ∉ st.1.map Prod.fst := by
      intro hmem
      obtain ⟨kv, hkv, hk⟩ := List.mem_map.mp hmem
      have hsome : (st.1.find? (fun kv => kv.1 = ov.repository_id)).isSome :=
        List.find?_isSome.mpr ⟨kv, hkv, by simp [hk]⟩
      rw [hf] at hsome
      simp at hsome
    constructor
    · intro hin; exact Or.inl hin
    · rintro (hin | ⟨_, hrid, hmem⟩)
      · exact hin
      · exact absurd (hrid ▸ hmem) hno
  | some kv0 =>
    have hp : kv0.1 = ov.repository_id := by simpa using List.find?_some hf
    have hkmem : ov.repository_id ∈ st.1.map Prod.fst :=
      hp ▸ List.mem_map_of_mem Prod.fst (List.mem_of_find?_eq_some hf)
    cases hty : ov.override_type with
    | skip =>
      by_cases hc : st.2.contains ov.repository_id
      · rw [if_pos hc]
        have hcm : ov.repository_id ∈ st.2 := by simpa using hc
        constructor
        · exact Or.inl
        · rintro (hin | ⟨_, hrid, _⟩)
          · exact hin
          · exact hrid ▸ hcm
      · rw [if_neg hc]
        rw [List.mem_append, List.mem_singleton]
        constructor
        · rintro (hin | heq)
          · exact Or.inl hin
          · exact Or.inr ⟨rfl, heq.symm, heq ▸ hkmem⟩
        · rintro (hin | ⟨_, hrid, _⟩)
          · exact Or.inl hin
          · exact Or.inr hrid.symm
    | milestone =>
      cases parse_milestone ov.target_milestone <;> simp
    | reorder => simp
    | note => simp

theorem applyLoop_skips (ovs : List OverrideInstruction) :
    ∀ st : List (Nat × NodeItem) × List Nat, ∀ r : Nat,
      (r ∈ (ovs.foldl applyOneOverride st).2 ↔
        r ∈ st.2 ∨ ∃ ov ∈ ovs, ov.override_type = OverrideType.skip ∧
          ov.repository_id = r ∧ r ∈ st.1.map Prod.fst) := by
  induction ovs with
  | nil => intro st r; simp
  | cons ov rest ih =>
    intro st r
    rw [List.foldl_cons, ih, applyOneOverride_keys]
    rw [applyOneOverride_skips]
    rw [List.exists_mem_cons_iff]
    tauto

/-- Characterisation helper: the phase into which the re-bucketing loop of
`OverrideManagerService.apply` routes a node value, or `none` when the node
is skipped or unroutable. -/
def routeOf (ms : List MilestoneGroup) (skips : List Nat) (n : NodeItem) :
    Option MilestonePhase :=
  if skips.contains n.repository_id then none
  else
    match n.forced_milestone with
    | some ph => some ph
    | none => find_original_phase ms n.repository_id

theorem override_buckets_get (ms : List MilestoneGroup) (skips : List Nat)
    (vals : List NodeItem) :
    ∀ (b : PhaseBuckets) (ph : MilestonePhase),
      (vals.foldl (fun (b : PhaseBuckets) (n : NodeItem) =>
        if skips.contains n.repository_id then b
        else
          match n.forced_milestone with
          | some ph => b.push ph n
          | none =>
            match find_original_phase ms n.repository_id with
            | some ph => b.push ph n
            | none => b) b).get ph =
      b.get ph ++ vals.filter (fun n => routeOf ms skips n = some ph) := by
  induction vals with
  | nil => intro b ph; simp
  | cons n rest ih =>
    intro b ph
    rw [List.foldl_cons, List.filter_cons]
    by_cases hskip : skips.contains n.repository_id
    · rw [if_pos hskip, ih]
      have hr : routeOf ms skips n = none := by
        unfold routeOf
        rw [if_pos hskip]
      simp [hr]
    · rw [if_neg hskip]
      have hroute : routeOf ms skips n =
          (match n.forced_milestone with
           | some ph => some ph
           | none => find_original_phase ms n.repository_id) := by
        unfold routeOf
        rw [if_neg hskip]
      cases hforced : n.forced_milestone with
      | some ph' =>
        rw [hforced] at hroute
        rw [ih, push_get]
        by_cases h : ph' = ph
        · simp [hroute, h]
        · simp [hroute, h]
      | none =>
        rw [hforced] at hroute
        cases horig : find_original_phase ms n.repository_id with
        | some ph' =>
          rw [horig] at hroute
          rw [ih, push_get]
          by_cases h : ph' = ph
          · simp [hroute, h]
          · simp [hroute, h]
        | none =>
          rw [horig] at hroute
          rw [ih]
          simp [hroute]

theorem apply_output_flatten_countP (b : PhaseBuckets) (q : NodeItem → Bool) :
    ((((dtoMilestoneOrder.map (fun ph =>
        MilestoneGroup.mk ph (stSort (fun n => n.order_index) (b.get ph)))).filter
        (fun g => ¬ g.nodes.isEmpty)).map (fun g => g.nodes)).flatten).countP q =
      (b.get MilestonePhase.foundations).countP q +
      (b.get MilestonePhase.core_skills).countP q +
      (b.get MilestonePhase.advanced_systems).countP q +
      (b.get MilestonePhase.specialized_topics).countP q := by
  rw [flatten_filter_nonempty, List.map_map]
  simp only [dtoMilestoneOrder, List.map_cons, List.map_nil, Function.comp_apply,
    List.flatten_cons, List.flatten_nil, List.append_nil, List.countP_append,
    stSort_countP]
  ring

theorem route_countP_split (ms : List MilestoneGroup) (skips : List Nat)
    (q : NodeItem → Bool) (vals : List NodeItem) :
    (vals.filter (fun n => routeOf ms skips n = some MilestonePhase.foundations)).countP q +
    (vals.filter (fun n => routeOf ms skips n = some MilestonePhase.core_skills)).countP q +
    (vals.filter (fun n => routeOf ms skips n = some MilestonePhase.advanced_systems)).countP q +
    (vals.filter (fun n => routeOf ms skips n = some MilestonePhase.specialized_topics)).countP q =
    vals.countP (fun n => (routeOf ms skips n).isSome && q n) := by
  induction vals with
  | nil => simp
  | cons n rest ih =>
    rw [List.filter_cons, List.filter_cons, List.filter_cons, List.filter_cons,
      List.countP_cons]
    cases hr : routeOf ms skips n with
    | none =>
      simp only [hr, Option.isSome_none, Bool.false_and, reduceCtorEq, decide_False,
        Bool.false_eq_true, if_false, cond_false]
      rw [← ih]
      ring
    | some ph =>
      cases ph <;> cases hq : q n <;>
        simp only [hr, hq, Option.isSome_some, Bool.true_and, Bool.and_true,
          Bool.and_false, Option.some.injEq, reduceCtorEq, decide_True,
          decide_False, Bool.false_eq_true, Bool.true_eq_false, if_true, if_false,
          List.countP_cons, decide_eq_true_eq, reduceIte] <;>
        rw [← ih] <;>
        ring

theorem emptyBuckets_get (ph : MilestonePhase) : emptyBuckets.get ph = [] := by
  cases ph <;> rfl

theorem find_original_phase_isSome (ms : List MilestoneGroup) (r : Nat)
    (h : r ∈ ((ms.map (fun g => g.nodes)).flatten).map (fun x => x.repository_id)) :
    (find_original_phase ms r).isSome := by
  unfold find_original_phase
  rw [Option.isSome_map']
  obtain ⟨x, hx, hr⟩ := List.mem_map.mp h
  obtain ⟨l, hl, hxl⟩ := List.mem_flatten.mp hx
  obtain ⟨g, hg, rfl⟩ := List.mem_map.mp hl
  exact List.find?_isSome.mpr
    ⟨g, hg, List.any_eq_true.mpr ⟨x, hxl, by simp [hr]⟩⟩

theorem countP_eq_one_of_nodup {l : List Nat} (hnd : l.Nodup) {r : Nat}
    (hr : r ∈ l) : l.countP (fun k => k = r) = 1 := by
  have h1 : l.countP (fun k => k = r) = l.count r := by
    rw [List.count_eq_countP]
    exact List.countP_congr (fun x _ => by simp)
  rw [h1]
  exact List.count_eq_one_of_mem hnd hr

/-- C10: on milestone input with pairwise distinct repository ids, the
override applier's output contains every input node that is not the target
of a skip override exactly once across all phases, and contains no node that
is the target of one — nodes are never duplicated and only skipped nodes
are dropped. -/
theorem C10_apply_keeps_each_nonskipped_node_exactly_once
    (milestones : List MilestoneGroup) (overrides : List OverrideInstruction)
    (hnd : (((milestones.map (fun g => g.nodes)).flatten).map
      (fun x => x.repository_id)).Nodup) :
    ∀ n ∈ (milestones.map (fun g => g.nodes)).flatten,
      ((((OverrideManagerService.apply milestones overrides).map
        (fun g => g.nodes)).flatten).countP
          (fun x => x.repository_id = n.repository_id)) =
      (if overrides.any (fun ov => ov.override_type = OverrideType.skip &&
          ov.repository_id = n.repository_id) then 0 else 1) := by
  intro n hn
  have hrmem : n.repository_id ∈
      ((milestones.map (fun g => g.nodes)).flatten).map (fun x => x.repository_id) :=
    List.mem_map_of_mem _ hn
  by_cases hne : overrides.isEmpty
  · have hovnil : overrides = [] := by
      cases overrides with
      | nil => rfl
      | cons o os => simp [List.isEmpty] at hne
    subst hovnil
    unfold OverrideManagerService.apply
    rw [if_pos (by simp)]
    simp only [List.any_nil, Bool.false_eq_true, if_false]
    have h1 : ((milestones.map (fun g => g.nodes)).flatten).countP
        (fun x => x.repository_id = n.repository_id) =
        (((milestones.map (fun g => g.nodes)).flatten).map
          (fun x => x.repository_id)).countP (fun k => k = n.repository_id) := by
      rw [List.countP_map]
      exact List.countP_congr (fun x _ => by simp [Function.comp])
    rw [h1]
    exact countP_eq_one_of_nodup hnd hrmem
  · have hm0eq : ((milestones.map (fun g => g.nodes)).flatten).foldl
        (fun m x => dictUpd m x.repository_id x) [] =
        ((milestones.map (fun g => g.nodes)).flatten).map
          (fun x => (x.repository_id, x)) := by
      exact buildMap_eq _ [] (by simpa using hnd)
    have hkeys : ((overrides.foldl applyOneOverride
        (((milestones.map (fun g => g.nodes)).flatten).map
          (fun x => (x.repository_id, x)), [])).1).map Prod.fst =
        ((milestones.map (fun g => g.nodes)).flatten).map
          (fun x => x.repository_id) := by
      rw [applyLoop_keys, List.map_map]
      rfl
    have hridinv : ∀ kv ∈ (overrides.foldl applyOneOverride
        (((milestones.map (fun g => g.nodes)).flatten).map
          (fun x => (x.repository_id, x)), [])).1,
        kv.2.repository_id = kv.1 := by
      refine applyLoop_rid overrides _ ?_
      intro kv hkv
      obtain ⟨x, hx, rfl⟩ := List.mem_map.mp hkv
      rfl
    have hvalcount : (((overrides.foldl applyOneOverride
        (((milestones.map (fun g => g.nodes)).flatten).map
          (fun x => (x.repository_id, x)), [])).1).map (fun kv => kv.2)).countP
        (fun x => x.repository_id = n.repository_id) = 1 := by
      rw [List.countP_map]
      have hcg : ((overrides.foldl applyOneOverride
          (((milestones.map (fun g => g.nodes)).flatten).map
            (fun x => (x.repository_id, x)), [])).1).countP
          ((fun x => decide (x.repository_id = n.repository_id)) ∘ (fun kv => kv.2)) =
          ((overrides.foldl applyOneOverride
          (((milestones.map (fun g => g.nodes)).flatten).map
            (fun x => (x.repository_id, x)), [])).1).countP
          ((fun k => decide (k = n.repository_id)) ∘ Prod.fst) :=
        List.countP_congr (fun kv hkv => by
          simp [Function.comp, hridinv kv hkv])
      rw [hcg, ← List.countP_map, hkeys]
      exact countP_eq_one_of_nodup hnd hrmem
    have hskipiff : n.repository_id ∈ (overrides.foldl applyOneOverride
        (((milestones.map (fun g => g.nodes)).flatten).map
          (fun x => (x.repository_id, x)), [])).2 ↔
        ∃ ov ∈ overrides, ov.override_type = OverrideType.skip ∧
          ov.repository_id = n.repository_id := by
      rw [applyLoop_skips]
      simp only [List.not_mem_nil, false_or]
      constructor
      · rintro ⟨ov, hov, hty, hrid, _⟩
        exact ⟨ov, hov, hty, hrid⟩
      · rintro ⟨ov, hov, hty, hrid⟩
        refine ⟨ov, hov, hty, hrid, ?_⟩
        rw [List.map_map]
        exact hrid ▸ hrmem
    unfold OverrideManagerService.apply
    rw [if_neg (by simp [hne])]
    simp only [hm0eq]
    rw [apply_output_flatten_countP]
    rw [override_buckets_get, override_buckets_get, override_buckets_get,
      override_buckets_get]
    simp only [emptyBuckets_get, List.nil_append]
    rw [route_countP_split]
    by_cases hskip : n.repository_id ∈ (overrides.foldl applyOneOverride
        (((milestones.map (fun g => g.nodes)).flatten).map
          (fun x => (x.repository_id, x)), [])).2
    · have hany : (overrides.any (fun ov =>
          ov.override_type = OverrideType.skip &&
          ov.repository_id = n.repository_id)) = true := by
        rw [List.any_eq_true]
        obtain ⟨ov, hov, hty, hrid⟩ := hskipiff.mp hskip
        exact ⟨ov, hov, by simp [hty, hrid]⟩
      rw [if_pos hany]
      rw [show (0 : Nat) = List.countP (fun _ => false)
          (((overrides.foldl applyOneOverride
            (((milestones.map (fun g => g.nodes)).flatten).map
              (fun x => (x.repository_id, x)), [])).1).map (fun kv => kv.2))
        from (congrFun List.countP_false _).symm]
      refine List.countP_congr ?_
      intro v hv
      simp only [Bool.and_eq_true, decide_eq_true_eq, Bool.false_eq_true,
        iff_false, not_and]
      intro hsome hrid
      unfold routeOf at hsome
      rw [if_pos (by simpa [hrid] using hskip)] at hsome
      simp at hsome
    · have hany : (overrides.any (fun ov =>
          ov.override_type = OverrideType.skip &&
          ov.repository_id = n.repository_id)) = false := by
        rw [Bool.eq_false_iff]
        intro hc
        obtain ⟨ov, hov, hb⟩ := List.any_eq_true.mp hc
        rw [Bool.and_eq_true, decide_eq_true_eq, decide_eq_true_eq] at hb
        exact hskip (hskipiff.mpr ⟨ov, hov, hb.1, hb.2⟩)
      rw [hany]
      simp only [Bool.false_eq_true, if_false]
      rw [← hvalcount]
      refine List.countP_congr ?_
      intro v hv
      simp only [Bool.and_eq_true, decide_eq_true_eq]
      constructor
      · rintro ⟨_, hrid⟩
        exact hrid
      · intro hrid
        refine ⟨?_, hrid⟩
        unfold routeOf
        rw [if_neg (by simpa [hrid] using hskip)]
        cases hf : v.forced_milestone with
        | some ph => simp
        | none =>
          exact find_original_phase_isSome milestones v.repository_id
            (hrid ▸ hrmem)

/-- Milestone fixture item, repository 1, order index 0. -/
def itemW1 : NodeItem :=
  ⟨901, 1, "alpha", 0, 10, 5, "backend", "basic", [], false, "", none⟩

/-- Milestone fixture item, repository 2, order index 1. -/
def itemW2 : NodeItem :=
  ⟨902, 2, "beta", 1, 12, 2, "backend", "basic", [], false, "", none⟩

/-- Two-phase milestone fixture. -/
def msW : List MilestoneGroup :=
  [⟨.foundations, [itemW1]⟩, ⟨.core_skills, [itemW2]⟩]

/-- Skip override targeting repository 1. -/
def ovW : OverrideInstruction := ⟨1, .skip, none, none, ""⟩

/-- Witness for C10 at a concrete two-node milestone list with one skip
override: repository 1 is dropped, repository 2 survives exactly once. -/
theorem C10_witness :
    ((((msW.map (fun g => g.nodes)).flatten).map (fun x => x.repository_id)).Nodup) ∧
    (∀ n ∈ (msW.map (fun g => g.nodes)).flatten,
      ((((OverrideManagerService.apply msW [ovW]).map
        (fun g => g.nodes)).flatten).countP
          (fun x => x.repository_id = n.repository_id)) =
      (if [ovW].any (fun ov => ov.override_type = OverrideType.skip &&
          ov.repository_id = n.repository_id) then 0 else 1)) :=
  ⟨by decide,
    C10_apply_keeps_each_nonskipped_node_exactly_once msW [ovW] (by decide)⟩

/-! ## C7 -/

/-- Backend/basic repository for the force-phase counterexample. -/
def repoF1 : Repository :=
  { repository_id := 11, name := "f1", path := "/r/f1",
    primary_skill := some ⟨.backend, .basic⟩, topics := [],
    complexity_score := 1, learning_hours_estimate := 4 }

/-- First backend/intermediate repository. -/
def repoF2 : Repository :=
  { repository_id := 12, name := "f2", path := "/r/f2",
    primary_skill := some ⟨.backend, .intermediate⟩, topics := [],
    complexity_score := 2, learning_hours_estimate := 4 }

/-- Second backend/intermediate repository. -/
def repoF3 : Repository :=
  { repository_id := 13, name := "f3", path := "/r/f3",
    primary_skill := some ⟨.backend, .intermediate⟩, topics := [],
    complexity_score := 3, learning_hours_estimate := 4 }

/-- Node for `repoF1`. -/
def nodeF1 : LearningNode := ⟨501, repoF1, [], [], 4⟩

/-- Node for `repoF2`. -/
def nodeF2 : LearningNode := ⟨502, repoF2, [], [], 4⟩

/-- Node for `repoF3`. -/
def nodeF3 : LearningNode := ⟨503, repoF3, [], [], 4⟩

/-- Force-phase override moving repository 11 into core_skills. -/
def ovForce : OverrideInstruction := ⟨11, .milestone, none, some "core_skills", ""⟩

/-- C7 counterexample: the claim states the forced node becomes the LAST
element of the named phase's node list.  Forcing the foundations node
(order index 0) into core_skills (holding order indexes 1 and 2) puts it
FIRST after the stable re-sort by `order_index`, not last. -/
theorem C7_forced_node_not_placed_at_tail :
    ((OverrideManagerService.apply
        (MilestoneGrouperService.group [nodeF1, nodeF2, nodeF3]) [ovForce]).map
      (fun g => (g.phase, g.nodes.map (fun x => x.repository_id)))) =
      [(MilestonePhase.core_skills, [11, 12, 13])] ∧
    ((OverrideManagerService.apply
        (MilestoneGrouperService.group [nodeF1, nodeF2, nodeF3]) [ovForce]).find?
      (fun g => g.phase = MilestonePhase.core_skills)).map
        (fun g => g.nodes.getLast?.map (fun x => x.repository_id)) =
      some (some 13) := by
  decide

theorem dictUpd_eq_map_of_mem {β : Type} (m : List (Nat × β)) (k : Nat) (v : β)
    (h : k ∈ m.map Prod.fst) :
    dictUpd m k v = m.map (fun kv => if kv.1 = k then (k, v) else kv) := by
  unfold dictUpd
  rw [if_pos]
  obtain ⟨kv, hkv, hk⟩ := List.mem_map.mp h
  exact List.any_eq_true.mpr ⟨kv, hkv, by simp [hk]⟩

theorem group_flatten_forced_none (ns : List LearningNode) :
    ∀ x ∈ ((MilestoneGrouperService.group ns).map (fun g => g.nodes)).flatten,
      x.forced_milestone = none := by
  intro x hx
  obtain ⟨l, hl, hxl⟩ := List.mem_flatten.mp hx
  obtain ⟨g, hg, rfl⟩ := List.mem_map.mp hl
  unfold MilestoneGrouperService.group at hg
  obtain ⟨ph, _, rfl⟩ := List.mem_map.mp (List.mem_of_mem_filter hg)
  rw [grouper_fold_get] at hxl
  rcases List.mem_append.mp hxl with hemp | hmem
  · rw [show emptyBuckets.get ph = [] from emptyBuckets_get ph] at hemp
    exact absurd hemp (List.not_mem_nil x)
  · obtain ⟨q, _, rfl⟩ := List.mem_map.mp hmem
    rfl

/-- C7, amended: after applying a force_phase override naming a known phase
for a repository present in the milestone list (with distinct repository
ids, as a generated path guarantees), that repository's node appears only in
the named phase, exactly once over all phases, marked `is_overridden = true`
with the supplied reason (or the canonical default "Moved to <phase>"), and
every output phase list is ordered by `order_index` — the forced node is
placed at the position the stable `order_index` re-sort gives it, which is
not in general the tail of the phase. -/
theorem C7_amended_force_phase_places_by_order_index
    (ns : List LearningNode) (ov : OverrideInstruction) (p : MilestonePhase)
    (hty : ov.override_type = OverrideType.milestone)
    (hparse : parse_milestone ov.target_milestone = some p)
    (hnd : ((((MilestoneGrouperService.group ns).map (fun g => g.nodes)).flatten).map
      (fun x => x.repository_id)).Nodup)
    (hr : ov.repository_id ∈
      (((MilestoneGrouperService.group ns).map (fun g => g.nodes)).flatten).map
        (fun x => x.repository_id)) :
    (∀ g ∈ OverrideManagerService.apply (MilestoneGrouperService.group ns) [ov],
      ∀ x ∈ g.nodes, x.repository_id = ov.repository_id →
        g.phase = p ∧ x.is_overridden = true ∧
        x.override_reason =
          (if ov.reason = "" then "Moved to " ++ p.val else ov.reason)) ∧
    ((((OverrideManagerService.apply (MilestoneGrouperService.group ns) [ov]).map
      (fun g => g.nodes)).flatten).countP
        (fun x => x.repository_id = ov.repository_id)) = 1 ∧
    (∀ g ∈ OverrideManagerService.apply (MilestoneGrouperService.group ns) [ov],
      g.nodes.Sorted (fun a b => a.order_index ≤ b.order_index)) := by
  have hm0eq : ((((MilestoneGrouperService.group ns).map
      (fun g => g.nodes)).flatten).foldl
      (fun m x => dictUpd m x.repository_id x) []) =
      (((MilestoneGrouperService.group ns).map (fun g => g.nodes)).flatten).map
        (fun x => (x.repository_id, x)) :=
    buildMap_eq _ [] (by simpa using hnd)
  have hkmem : ov.repository_id ∈
      ((((MilestoneGrouperService.group ns).map (fun g => g.nodes)).flatten).map
        (fun x => (x.repository_id, x))).map Prod.fst := by
    rw [List.map_map]
    exact hr
  cases hfind : ((((MilestoneGrouperService.group ns).map
      (fun g => g.nodes)).flatten).map
      (fun x => (x.repository_id, x))).find? (fun kv => kv.1 = ov.repository_id) with
  | none =>
    exfalso
    obtain ⟨kv, hkv, hk⟩ := List.mem_map.mp hkmem
    have hsome : (((((MilestoneGrouperService.group ns).map
        (fun g => g.nodes)).flatten).map (fun x => (x.repository_id, x))).find?
        (fun kv => kv.1 = ov.repository_id)).isSome :=
      List.find?_isSome.mpr ⟨kv, hkv, by simp [hk]⟩
    rw [hfind] at hsome
    simp at hsome
  | some kv0 =>
  have hkv0mem := List.mem_of_find?_eq_some hfind
  have hkv0key : kv0.1 = ov.repository_id := by simpa using List.find?_some hfind
  obtain ⟨y0, hy0mem, hy0eq⟩ := List.mem_map.mp hkv0mem
  have hkv0rid : kv0.2.repository_id = ov.repository_id := by
    rw [← hy0eq, ← hkv0key, ← hy0eq]
  have happly : applyOneOverride
      ((((MilestoneGrouperService.group ns).map (fun g => g.nodes)).flatten).map
        (fun x => (x.repository_id, x)), []) ov =
      (dictUpd ((((MilestoneGrouperService.group ns).map
        (fun g => g.nodes)).flatten).map (fun x => (x.repository_id, x)))
        ov.repository_id (markMilestone kv0.2 ov p), []) := by
    unfold applyOneOverride
    rw [hfind, hty, hparse]
  have hridbase : ∀ kv ∈ ((((MilestoneGrouperService.group ns).map
      (fun g => g.nodes)).flatten).map (fun x => (x.repository_id, x))),
      kv.2.repository_id = kv.1 := by
    intro kv hkv
    obtain ⟨x, hx, rfl⟩ := List.mem_map.mp hkv
    rfl
  have hvalsmarked : ∀ v ∈ (dictUpd ((((MilestoneGrouperService.group ns).map
      (fun g => g.nodes)).flatten).map (fun x => (x.repository_id, x)))
      ov.repository_id (markMilestone kv0.2 ov p)).map (fun kv => kv.2),
      v.repository_id = ov.repository_id → v = markMilestone kv0.2 ov p := by
    intro v hv hvr
    rw [dictUpd_eq_map_of_mem _ _ _ hkmem, List.map_map] at hv
    obtain ⟨kv, hkv, hveq⟩ := List.mem_map.mp hv
    by_cases hkk : kv.1 = ov.repository_id
    · simp only [Function.comp_apply, hkk, if_pos] at hveq
      exact hveq.symm
    · simp only [Function.comp_apply, hkk, if_neg, not_false_iff] at hveq
      have hcontr : kv.1 = ov.repository_id := by
        rw [← hridbase kv hkv, hveq, hvr]
      exact absurd hcontr hkk
  have hridinv : ∀ kv ∈ (dictUpd ((((MilestoneGrouperService.group ns).map
      (fun g => g.nodes)).flatten).map (fun x => (x.repository_id, x)))
      ov.repository_id (markMilestone kv0.2 ov p)),
      kv.2.repository_id = kv.1 := by
    intro kv hkv
    rcases dictUpd_mem _ _ _ kv hkv with heq | hm
    · rw [heq]
      exact hkv0rid
    · exact hridbase kv hm
  have hkeys : ((dictUpd ((((MilestoneGrouperService.group ns).map
      (fun g => g.nodes)).flatten).map (fun x => (x.repository_id, x)))
      ov.repository_id (markMilestone kv0.2 ov p)).map Prod.fst) =
      (((MilestoneGrouperService.group ns).map (fun g => g.nodes)).flatten).map
        (fun x => x.repository_id) := by
    rw [dictUpd_keys_of_mem _ _ _ hkmem, List.map_map]
    rfl
  have hvalcount : ((dictUpd ((((MilestoneGrouperService.group ns).map
      (fun g => g.nodes)).flatten).map (fun x => (x.repository_id, x)))
      ov.repository_id (markMilestone kv0.2 ov p)).map (fun kv => kv.2)).countP
      (fun x => x.repository_id = ov.repository_id) = 1 := by
    rw [List.countP_map]
    have hcg : ((dictUpd ((((MilestoneGrouperService.group ns).map
        (fun g => g.nodes)).flatten).map (fun x => (x.repository_id, x)))
        ov.repository_id (markMilestone kv0.2 ov p)).countP
        ((fun x => decide (x.repository_id = ov.repository_id)) ∘ (fun kv => kv.2))) =
        ((dictUpd ((((MilestoneGrouperService.group ns).map
        (fun g => g.nodes)).flatten).map (fun x => (x.repository_id, x)))
        ov.repository_id (markMilestone kv0.2 ov p)).countP
        ((fun k => decide (k = ov.repository_id)) ∘ Prod.fst)) :=
      List.countP_congr (fun kv hkv => by simp [Function.comp, hridinv kv hkv])
    rw [hcg, ← List.countP_map, hkeys]
    exact countP_eq_one_of_nodup hnd hr
  have hforcednone := group_flatten_forced_none ns
  have hmarkedroute : routeOf (MilestoneGrouperService.group ns) []
      (markMilestone kv0.2 ov p) = some p := by
    unfold routeOf
    rw [if_neg (by simp)]
    rfl
  refine ⟨?_, ?_, ?_⟩
  · intro g hg x hx hxr
    unfold OverrideManagerService.apply at hg
    rw [if_neg (by simp)] at hg
    simp only [hm0eq, List.foldl_cons, List.foldl_nil, happly] at hg
    obtain ⟨ph, _, rfl⟩ := List.mem_map.mp (List.mem_of_mem_filter hg)
    have hxmem := ((stSort_perm (fun n : NodeItem => n.order_index) _).mem_iff).mp hx
    rw [override_buckets_get, emptyBuckets_get, List.nil_append] at hxmem
    have hxval := List.mem_of_mem_filter hxmem
    have hxroute := List.of_mem_filter hxmem
    have hxismarked := hvalsmarked x hxval hxr
    rw [hxismarked] at hxroute
    rw [hmarkedroute] at hxroute
    have hphp : p = ph := by simpa using hxroute
    refine ⟨hphp.symm, ?_, ?_⟩
    · rw [hxismarked]
      rfl
    · rw [hxismarked]
      rfl
  · unfold OverrideManagerService.apply
    rw [if_neg (by simp)]
    simp only [hm0eq, List.foldl_cons, List.foldl_nil, happly]
    rw [apply_output_flatten_countP]
    rw [override_buckets_get, override_buckets_get, override_buckets_get,
      override_buckets_get]
    simp only [emptyBuckets_get, List.nil_append]
    rw [route_countP_split]
    rw [← hvalcount]
    refine List.countP_congr ?_
    intro v hv
    simp only [Bool.and_eq_true, decide_eq_true_eq]
    constructor
    · rintro ⟨_, hrid⟩
      exact hrid
    · intro hrid
      refine ⟨?_, hrid⟩
      rw [hvalsmarked v hv hrid, hmarkedroute]
      rfl
  · intro g hg
    unfold OverrideManagerService.apply at hg
    rw [if_neg (by simp)] at hg
    simp only [hm0eq, List.foldl_cons, List.foldl_nil, happly] at hg
    obtain ⟨ph, _, rfl⟩ := List.mem_map.mp (List.mem_of_mem_filter hg)
    exact stSort_sorted (fun n : NodeItem => n.order_index) _

/-- Witness for the amended C7 at a concrete three-node grouping with the
force-to-core_skills override: hypotheses hold by evaluation and the forced
repository appears exactly once in the output. -/
theorem C7_amended_witness :
    (ovForce.override_type = OverrideType.milestone ∧
     parse_milestone ovForce.target_milestone = some MilestonePhase.core_skills ∧
     ((((MilestoneGrouperService.group [nodeF1, nodeF2, nodeF3]).map
       (fun g => g.nodes)).flatten).map (fun x => x.repository_id)).Nodup ∧
     ovForce.repository_id ∈
       (((MilestoneGrouperService.group [nodeF1, nodeF2, nodeF3]).map
         (fun g => g.nodes)).flatten).map (fun x => x.repository_id)) ∧
    ((((OverrideManagerService.apply
      (MilestoneGrouperService.group [nodeF1, nodeF2, nodeF3]) [ovForce]).map
      (fun g => g.nodes)).flatten).countP
        (fun x => x.repository_id = ovForce.repository_id)) = 1 :=
  ⟨⟨rfl, by decide, by decide, by decide⟩,
    (C7_amended_force_phase_places_by_order_index [nodeF1, nodeF2, nodeF3]
      ovForce MilestonePhase.core_skills rfl (by decide) (by decide)
      (by decide)).2.1⟩

/-! ## C8 -/

theorem enumFrom_fst_sorted {α : Type} (l : List α) :
    ∀ i : Nat, (List.enumFrom i l).Sorted (fun a b => a.1 < b.1) := by
  induction l with
  | nil => intro i; simp
  | cons x xs ih =>
    intro i
    rw [List.enumFrom_cons, List.sorted_cons]
    refine ⟨?_, ih (i + 1)⟩
    intro b hb
    obtain ⟨q, r⟩ := b
    have := (List.mem_enumFrom hb).1
    simpa using this

theorem phase_items_sorted (ns : List LearningNode) (ph : MilestonePhase) :
    ((ns.enum.filter (fun p => assign_phase p.2 = ph)).map
      (fun p => node_to_item p.2 p.1)).Sorted
      (fun a b => a.order_index < b.order_index) := by
  rw [List.Sorted, List.pairwise_map]
  have hbase : List.Pairwise (fun (a b : Nat × LearningNode) => a.1 < b.1)
      (ns.enum.filter (fun p => assign_phase p.2 = ph)) := by
    refine List.Pairwise.filter _ ?_
    rw [List.enum_eq_enumFrom]
    exact enumFrom_fst_sorted ns 0
  refine hbase.imp ?_
  intro a b hab
  show Int.ofNat a.1 < Int.ofNat b.1
  exact Int.ofNat_lt.mpr hab

theorem find_original_mem_phase (ms : List MilestoneGroup) (r : Nat)
    (ph : MilestonePhase) (h : find_original_phase ms r = some ph) :
    ph ∈ ms.map (fun g => g.phase) := by
  unfold find_original_phase at h
  cases hf : ms.find? (fun g => g.nodes.any (fun n => n.repository_id = r)) with
  | none => rw [hf] at h; simp at h
  | some g =>
    rw [hf] at h
    simp only [Option.map_some', Option.some.injEq] at h
    exact h ▸ List.mem_map_of_mem _ (List.mem_of_find?_eq_some hf)

/-- Characterisation helper: the node list of the first group of `ms` with
the given phase, or `[]` when no group has it. -/
def groupNodesAt (ms : List MilestoneGroup) (ph : MilestonePhase) : List NodeItem :=
  match ms.find? (fun g => g.phase = ph) with
  | some g => g.nodes
  | none => []

theorem flat_filter_find_original (ms : List MilestoneGroup)
    (hnd : ((((ms.map (fun g => g.nodes)).flatten).map
      (fun x => x.repository_id))).Nodup)
    (hph : (ms.map (fun g => g.phase)).Nodup) (ph : MilestonePhase) :
    ((ms.map (fun g => g.nodes)).flatten).filter
      (fun v => find_original_phase ms v.repository_id = some ph) =
    groupNodesAt ms ph := by
  unfold groupNodesAt
  induction ms with
  | nil => simp
  | cons g rest ih =>
    simp only [List.map_cons, List.flatten_cons, List.filter_append] at *
    have hndparts := hnd
    rw [List.map_append, List.nodup_append] at hndparts
    obtain ⟨hnd1, hnd2, hdisj⟩ := hndparts
    rw [List.nodup_cons] at hph
    obtain ⟨hphg, hphrest⟩ := hph
    have hhead : ∀ v ∈ g.nodes,
        find_original_phase (g :: rest) v.repository_id = some g.phase := by
      intro v hv
      unfold find_original_phase
      rw [List.find?_cons_of_pos]
      · rfl
      · exact List.any_eq_true.mpr ⟨v, hv, by simp⟩
    have htail : ∀ v ∈ (rest.map (fun g => g.nodes)).flatten,
        find_original_phase (g :: rest) v.repository_id =
        find_original_phase rest v.repository_id := by
      intro v hv
      unfold find_original_phase
      rw [List.find?_cons_of_neg]
      rw [Bool.not_eq_true, List.any_eq_false]
      intro x hx
      simp only [decide_eq_true_eq]
      intro hxr
      have h1 : v.repository_id ∈ (rest.map (fun g => g.nodes)).flatten.map
          (fun x => x.repository_id) := List.mem_map_of_mem _ hv
      have h2 : v.repository_id ∈ g.nodes.map (fun x => x.repository_id) := by
        rw [← hxr]
        exact List.mem_map_of_mem _ hx
      exact hdisj h2 h1
    by_cases hgph : g.phase = ph
    · rw [List.find?_cons_of_pos _ (by simp [hgph])]
      have hseg1 : g.nodes.filter
          (fun v => find_original_phase (g :: rest) v.repository_id = some ph) =
          g.nodes := by
        rw [List.filter_eq_self]
        intro v hv
        simp [hhead v hv, hgph]
      have hseg2 : ((rest.map (fun g => g.nodes)).flatten).filter
          (fun v => find_original_phase (g :: rest) v.repository_id = some ph) =
          [] := by
        rw [List.filter_eq_nil_iff]
        intro v hv
        rw [htail v hv]
        simp only [decide_eq_true_eq]
        intro hfo
        exact (hgph ▸ hphg) (find_original_mem_phase rest v.repository_id ph hfo)
      rw [hseg1, hseg2, List.append_nil]
    · rw [List.find?_cons_of_neg _ (by simp [hgph])]
      have hseg1 : g.nodes.filter
          (fun v => find_original_phase (g :: rest) v.repository_id = some ph) =
          [] := by
        rw [List.filter_eq_nil_iff]
        intro v hv
        rw [hhead v hv]
        simp [hgph]
      rw [hseg1, List.nil_append]
      have hcongr : ((rest.map (fun g => g.nodes)).flatten).filter
          (fun v => find_original_phase (g :: rest) v.repository_id = some ph) =
          ((rest.map (fun g => g.nodes)).flatten).filter
          (fun v => find_original_phase rest v.repository_id = some ph) := by
        refine List.filter_congr ?_
        intro v hv
        rw [htail v hv]
      rw [hcongr]
      exact ih hnd2 hphrest

theorem orders_eq : milestoneOrderGrouper = dtoMilestoneOrder := rfl

theorem assemble_groups (pres : MilestonePhase → Bool)
    (items : MilestonePhase → List NodeItem) :
    ∀ order : List MilestonePhase, order.Nodup →
    (∀ ph ∈ order, pres ph = true ↔ items ph ≠ []) →
    ((order.map (fun ph => MilestoneGroup.mk ph
      (groupNodesAt ((order.filter pres).map
          (fun ph => MilestoneGroup.mk ph (items ph))) ph))).filter
        (fun g => ¬ g.nodes.isEmpty)) =
    (order.filter pres).map (fun ph => MilestoneGroup.mk ph (items ph)) := by
  intro order
  unfold groupNodesAt
  induction order with
  | nil => intro _ _; simp
  | cons ph rest ih =>
    intro hnd hpres
    rw [List.nodup_cons] at hnd
    obtain ⟨hph, hndrest⟩ := hnd
    have hms : ((ph :: rest).filter pres).map
        (fun ph => MilestoneGroup.mk ph (items ph)) =
        (if pres ph then [MilestoneGroup.mk ph (items ph)] else []) ++
        (rest.filter pres).map (fun ph => MilestoneGroup.mk ph (items ph)) := by
      rw [List.filter_cons]
      by_cases hp : pres ph <;> simp [hp]
    have hfind_tail : ∀ ph' ∈ rest,
        (((ph :: rest).filter pres).map
          (fun ph => MilestoneGroup.mk ph (items ph))).find?
          (fun g => g.phase = ph') =
        ((rest.filter pres).map
          (fun ph => MilestoneGroup.mk ph (items ph))).find?
          (fun g => g.phase = ph') := by
      intro ph' hph'
      rw [hms]
      by_cases hp : pres ph
      · rw [if_pos hp, List.singleton_append, List.find?_cons_of_neg]
        simp only [decide_eq_true_eq]
        intro hc
        exact hph (hc ▸ hph')
      · rw [if_neg hp, List.nil_append]
    have hrestphases : ∀ g ∈ (rest.filter pres).map
        (fun ph => MilestoneGroup.mk ph (items ph)), g.phase ∈ rest := by
      intro g hg
      obtain ⟨ph', hph', rfl⟩ := List.mem_map.mp hg
      exact List.mem_of_mem_filter hph'
    rw [List.map_cons, List.filter_cons]
    have htailmap : rest.map (fun ph' => MilestoneGroup.mk ph'
        (match (((ph :: rest).filter pres).map
            (fun ph => MilestoneGroup.mk ph (items ph))).find?
            (fun g => g.phase = ph') with
         | some g => g.nodes
         | none => [])) =
        rest.map (fun ph' => MilestoneGroup.mk ph'
        (match ((rest.filter pres).map
            (fun ph => MilestoneGroup.mk ph (items ph))).find?
            (fun g => g.phase = ph') with
         | some g => g.nodes
         | none => [])) := by
      refine List.map_congr_left ?_
      intro ph' hph'
      rw [hfind_tail ph' hph']
    by_cases hp : pres ph
    · have hhead : (((ph :: rest).filter pres).map
          (fun ph => MilestoneGroup.mk ph (items ph))).find?
          (fun g => g.phase = ph) = some (MilestoneGroup.mk ph (items ph)) := by
        rw [hms, if_pos hp, List.singleton_append, List.find?_cons_of_pos]
        simp
      rw [hhead]
      have hne : items ph ≠ [] := (hpres ph (by simp)).mp hp
      rw [if_pos (by simpa [List.isEmpty_iff] using hne)]
      rw [htailmap, ih hndrest (fun q hq => hpres q (by simp [hq]))]
      rw [hms, if_pos hp, List.singleton_append]
    · have hhead : (((ph :: rest).filter pres).map
          (fun ph => MilestoneGroup.mk ph (items ph))).find?
          (fun g => g.phase = ph) = none := by
        rw [hms, if_neg hp, List.nil_append, List.find?_eq_none]
        intro g hg
        simp only [decide_eq_true_eq]
        intro hc
        exact hph (hc ▸ hrestphases g hg)
      rw [hhead]
      have hemp : items ph = [] := by
        by_contra hc
        exact hp ((hpres ph (by simp)).mpr hc)
      rw [if_neg (by simp)]
      rw [htailmap, ih hndrest (fun q hq => hpres q (by simp [hq]))]
      rw [hms, if_neg hp, List.nil_append]

theorem group_pres_iff (ns : List LearningNode) (ph : MilestonePhase) :
    (ns.any (fun n => assign_phase n = ph)) = true ↔
    ((ns.enum.filter (fun p => assign_phase p.2 = ph)).map
      (fun p => node_to_item p.2 p.1)) ≠ [] := by
  rw [← group_any_enum ns ph]
  rw [Ne, List.map_eq_nil_iff, List.filter_eq_nil_iff]
  rw [List.any_eq_true]
  constructor
  · rintro ⟨p, hp, hq⟩ hall
    exact hall p hp hq
  · intro h
    by_contra hc
    push_neg at hc
    exact h (fun p hp hq => hc p hp hq)

theorem apply_unknown_identity (ns : List LearningNode) (ov : OverrideInstruction)
    (hnd : ((((MilestoneGrouperService.group ns).map (fun g => g.nodes)).flatten).map
      (fun x => x.repository_id)).Nodup)
    (hno : ov.repository_id ∉
      (((MilestoneGrouperService.group ns).map (fun g => g.nodes)).flatten).map
        (fun x => x.repository_id)) :
    OverrideManagerService.apply (MilestoneGrouperService.group ns) [ov] =
      MilestoneGrouperService.group ns := by
  unfold OverrideManagerService.apply
  rw [if_neg (by simp)]
  have hm0eq := buildMap_eq
    (((MilestoneGrouperService.group ns).map (fun g => g.nodes)).flatten) []
    (by simpa using hnd)
  simp only [hm0eq, List.nil_append, List.foldl_cons, List.foldl_nil]
  have hfind : ((((MilestoneGrouperService.group ns).map
      (fun g => g.nodes)).flatten).map (fun x => (x.repository_id, x))).find?
      (fun kv => kv.1 = ov.repository_id) = none := by
    rw [List.find?_eq_none]
    intro kv hkv
    obtain ⟨x, hx, rfl⟩ := List.mem_map.mp hkv
    simp only [decide_eq_true_eq]
    intro hc
    exact hno (hc ▸ List.mem_map_of_mem _ hx)
  have happ : applyOneOverride
      ((((MilestoneGrouperService.group ns).map (fun g => g.nodes)).flatten).map
        (fun x => (x.repository_id, x)), []) ov =
      ((((MilestoneGrouperService.group ns).map (fun g => g.nodes)).flatten).map
        (fun x => (x.repository_id, x)), []) := by
    unfold applyOneOverride
    rw [hfind]
  rw [happ]
  have hvals : ((((MilestoneGrouperService.group ns).map
      (fun g => g.nodes)).flatten).map (fun x => (x.repository_id, x))).map
      (fun kv => kv.2) =
      ((MilestoneGrouperService.group ns).map (fun g => g.nodes)).flatten := by
    rw [List.map_map]
    exact List.map_id'' (fun x => rfl) _
  rw [hvals]
  simp only [override_buckets_get, emptyBuckets_get, List.nil_append]
  have hphnd : ((MilestoneGrouperService.group ns).map
      (fun g => g.phase)).Nodup := by
    rw [group_eq_filtered_map ns, List.map_map]
    have : ((milestoneOrderGrouper.filter
        (fun ph => ns.any (fun n => assign_phase n = ph))).map
        ((fun g => g.phase) ∘ (fun ph => MilestoneGroup.mk ph
          ((ns.enum.filter (fun p => assign_phase p.2 = ph)).map
            (fun p => node_to_item p.2 p.1))))) =
        (milestoneOrderGrouper.filter
        (fun ph => ns.any (fun n => assign_phase n = ph))) := by
      exact List.map_id'' (fun x => rfl) _
    rw [this]
    exact List.Nodup.filter _ (by decide)
  have hstep : ∀ ph ∈ dtoMilestoneOrder,
      MilestoneGroup.mk ph (stSort (fun n => n.order_index)
        ((((MilestoneGrouperService.group ns).map
          (fun g => g.nodes)).flatten).filter
          (fun n => routeOf (MilestoneGrouperService.group ns) [] n = some ph))) =
      MilestoneGroup.mk ph
        (groupNodesAt (MilestoneGrouperService.group ns) ph) := by
    intro ph _
    have hcongr : ((((MilestoneGrouperService.group ns).map
        (fun g => g.nodes)).flatten).filter
        (fun n => routeOf (MilestoneGrouperService.group ns) [] n = some ph)) =
        ((((MilestoneGrouperService.group ns).map
        (fun g => g.nodes)).flatten).filter
        (fun v => find_original_phase (MilestoneGrouperService.group ns)
          v.repository_id = some ph)) := by
      refine List.filter_congr ?_
      intro v hv
      have hforced := group_flatten_forced_none ns v hv
      unfold routeOf
      rw [if_neg (by simp), hforced]
    rw [hcongr, flat_filter_find_original _ hnd hphnd ph]
    congr 1
    unfold groupNodesAt
    cases hf : (MilestoneGrouperService.group ns).find?
        (fun g => g.phase = ph) with
    | none => rfl
    | some g =>
      have hgmem := List.mem_of_find?_eq_some hf
      rw [group_eq_filtered_map ns] at hgmem
      obtain ⟨ph', _, rfl⟩ := List.mem_map.mp hgmem
      exact stSort_of_sorted _ _ (phase_items_sorted ns ph')
  rw [List.map_congr_left hstep]
  conv_rhs => rw [group_eq_filtered_map ns, orders_eq]
  have hgn : MilestoneGrouperService.group ns =
      (dtoMilestoneOrder.filter
        (fun ph => ns.any (fun n => assign_phase n = ph))).map
        (fun ph => MilestoneGroup.mk ph
          ((ns.enum.filter (fun p => assign_phase p.2 = ph)).map
            (fun p => node_to_item p.2 p.1))) := by
    rw [group_eq_filtered_map ns, orders_eq]
  rw [hgn]
  exact assemble_groups _ _ dtoMilestoneOrder (by decide)
    (fun ph _ => group_pres_iff ns ph)

/-- All response fields except the milestone list, used to state that
override processing influences nothing else in the response — in
particular not the warnings. -/
def responseMeta (r : LearningPathResponse) :
    Nat × String × String × String × String × Nat × Nat × Rat ×
      List String × Nat × Nat :=
  (r.path_id, r.learner_id, r.name, r.description, r.status,
   r.total_repositories, r.total_estimated_hours, r.completion_percentage,
   r.warnings, r.repositories_considered, r.repositories_included)

theorem except_map_comp_congr {α β γ : Type} (S : Except DomainError α)
    (f g : α → β) (m : β → γ) (h : ∀ a, m (f a) = m (g a)) :
    (S.map f).map m = (S.map g).map m := by
  cases S <;> simp [Except.map, h]

theorem generate_meta_ignores_overrides
    (request : GenerateLearningPathRequest) (repositories : List Repository)
    (pending_overrides : List OverrideInstruction) (path_id node_id_base : Nat)
    (order_choice : List DependencyRelation → List DependencyRelation) :
    (PathGeneratorService.generate request repositories pending_overrides
      path_id node_id_base order_choice).map responseMeta =
    (PathGeneratorService.generate request repositories []
      path_id node_id_base order_choice).map responseMeta := by
  unfold PathGeneratorService.generate
  exact except_map_comp_congr _ _ _ responseMeta (fun sp => rfl)

/-- The counterexample override, targeting a repository id absent from any
path built in this development. -/
def ovUnknown : OverrideInstruction := ⟨999, .skip, none, none, ""⟩

/-- Plain generation request with no filters or caps. -/
def reqC8 : GenerateLearningPathRequest :=
  { learner_id := "u1", name := "p", description := "",
    target_skill_types := [], target_skill_level := none,
    max_repositories := none, allow_parallel_learning := false,
    max_parallel_nodes := 3, exclude_repository_ids := [] }

/-- C8 counterexample: the claim states that applying one override whose
repository id matches no node appends exactly one warning to the generation
result's warnings.  In a concrete run with such an override the result's
warnings list is empty and the whole response equals the no-override run:
the miss is only logged, never surfaced as a warning. -/
theorem C8_unknown_override_appends_no_warning :
    (PathGeneratorService.generate reqC8 [repoA, repoB] [ovUnknown] 0 100
      (fun l => l)).map (fun r => r.warnings) = Except.ok [] ∧
    PathGeneratorService.generate reqC8 [repoA, repoB] [ovUnknown] 0 100
      (fun l => l) =
    PathGeneratorService.generate reqC8 [repoA, repoB] [] 0 100
      (fun l => l) := by
  decide

/-- C8, amended: applying an override list containing one override whose
repository id matches no node of the grouper-produced milestone list leaves
the phase list unchanged, and override processing appends no warning to the
generation result — every response field other than the milestone list,
including warnings, is identical to the run without overrides (the miss is
only logged). -/
theorem C8_amended_unknown_override_is_identity_and_warns_nothing
    (ns : List LearningNode) (ov : OverrideInstruction)
    (hnd : ((((MilestoneGrouperService.group ns).map (fun g => g.nodes)).flatten).map
      (fun x => x.repository_id)).Nodup)
    (hno : ov.repository_id ∉
      (((MilestoneGrouperService.group ns).map (fun g => g.nodes)).flatten).map
        (fun x => x.repository_id)) :
    OverrideManagerService.apply (MilestoneGrouperService.group ns) [ov] =
      MilestoneGrouperService.group ns ∧
    (∀ (request : GenerateLearningPathRequest) (repositories : List Repository)
      (pending_overrides : List OverrideInstruction) (path_id node_id_base : Nat)
      (order_choice : List DependencyRelation → List DependencyRelation),
      (PathGeneratorService.generate request repositories pending_overrides
        path_id node_id_base order_choice).map responseMeta =
      (PathGeneratorService.generate request repositories []
        path_id node_id_base order_choice).map responseMeta) :=
  ⟨apply_unknown_identity ns ov hnd hno,
    fun request repositories pending_overrides path_id node_id_base order_choice =>
      generate_meta_ignores_overrides request repositories pending_overrides
        path_id node_id_base order_choice⟩

/-- Witness for the amended C8 on a concrete grouping and the unknown-repo
override. -/
theorem C8_amended_witness :
    (((((MilestoneGrouperService.group [nodeF1, nodeF2, nodeF3]).map
      (fun g => g.nodes)).flatten).map (fun x => x.repository_id)).Nodup ∧
     ovUnknown.repository_id ∉
       (((MilestoneGrouperService.group [nodeF1, nodeF2, nodeF3]).map
         (fun g => g.nodes)).flatten).map (fun x => x.repository_id)) ∧
    OverrideManagerService.apply
      (MilestoneGrouperService.group [nodeF1, nodeF2, nodeF3]) [ovUnknown] =
      MilestoneGrouperService.group [nodeF1, nodeF2, nodeF3] :=
  ⟨⟨by decide, by decide⟩,
    (C8_amended_unknown_override_is_identity_and_warns_nothing
      [nodeF1, nodeF2, nodeF3] ovUnknown (by decide) (by decide)).1⟩

/-! ## C9 -/

theorem discardPrereq_node_id (sid? : Option Nat) (t : Nat) (n : LearningNode) :
    (discardPrereq sid? t n).node_id = n.node_id := by
  unfold discardPrereq
  by_cases h : n.repository.repository_id = t <;> cases sid? <;> simp [h]

theorem discardPrereq_repository_id (sid? : Option Nat) (t : Nat)
    (n : LearningNode) :
    (discardPrereq sid? t n).repository.repository_id =
      n.repository.repository_id := by
  unfold discardPrereq
  by_cases h : n.repository.repository_id = t <;> cases sid? <;> simp [h]

theorem find?_nodeId_map (l : List LearningNode) (g : LearningNode → LearningNode)
    (hnid : ∀ n, (g n).node_id = n.node_id)
    (hrid : ∀ n, (g n).repository.repository_id = n.repository.repository_id)
    (s : Nat) :
    (((l.map g).find? (fun n => n.repository.repository_id = s)).map
      (fun n => n.node_id)) =
    ((l.find? (fun n => n.repository.repository_id = s)).map
      (fun n => n.node_id)) := by
  induction l with
  | nil => rfl
  | cons x xs ih =>
    rw [List.map_cons]
    by_cases h : x.repository.repository_id = s
    · rw [List.find?_cons_of_pos _ (by simp only [decide_eq_true_eq]; rw [hrid x]; exact h),
        List.find?_cons_of_pos _ (by simp [h])]
      simp [hnid x]
    · rw [List.find?_cons_of_neg _ (by simp only [decide_eq_true_eq]; rw [hrid x]; exact h),
        List.find?_cons_of_neg _ (by simp [h])]
      exact ih

theorem srcNodeIdFor_discardDep (p : LearningPath) (d e : DependencyRelation) :
    srcNodeIdFor (discardDep p d) e = srcNodeIdFor p e := by
  show (((p.nodes.map (discardPrereq (srcNodeIdFor p d)
      d.target_repository_id)).find?
      (fun n => n.repository.repository_id = e.source_repository_id)).map
      (fun n => n.node_id)) = srcNodeIdFor p e
  rw [find?_nodeId_map _ _ (discardPrereq_node_id _ _)
    (discardPrereq_repository_id _ _)]
  rfl

theorem discardDep_discardDep (p : LearningPath) (d₁ d₂ : DependencyRelation) :
    discardDep (discardDep p d₁) d₂ =
    { p with
      dependencies := ((p.dependencies.filter (fun e => ¬ e.sameKey d₁)).filter
        (fun e => ¬ e.sameKey d₂)),
      nodes := ((p.nodes.map (discardPrereq (srcNodeIdFor p d₁)
        d₁.target_repository_id)).map (discardPrereq (srcNodeIdFor p d₂)
        d₂.target_repository_id)) } := by
  have hs : srcNodeIdFor (discardDep p d₁) d₂ = srcNodeIdFor p d₂ :=
    srcNodeIdFor_discardDep p d₁ d₂
  show { discardDep p d₁ with
      dependencies := (discardDep p d₁).dependencies.filter
        (fun e => ¬ e.sameKey d₂),
      nodes := (discardDep p d₁).nodes.map
        (discardPrereq (srcNodeIdFor (discardDep p d₁) d₂)
          d₂.target_repository_id) } = _
  rw [hs]
  rfl

theorem prereq_filter_comm (n : LearningNode) (s₁ s₂ : Nat) :
    ((n.prerequisite_nodes.filter (fun x => x ≠ s₁)).filter
      (fun x => x ≠ s₂)) =
    ((n.prerequisite_nodes.filter (fun x => x ≠ s₂)).filter
      (fun x => x ≠ s₁)) :=
  List.filter_comm _ _ _

theorem discardPrereq_none (t : Nat) (n : LearningNode) :
    discardPrereq none t n = n := by
  unfold discardPrereq
  split <;> rfl

theorem discardPrereq_some_pos (v t : Nat) (n : LearningNode)
    (h : n.repository.repository_id = t) :
    discardPrereq (some v) t n =
      { n with prerequisite_nodes :=
          n.prerequisite_nodes.filter (fun x => x ≠ v) } := by
  unfold discardPrereq
  rw [if_pos h]

theorem discardPrereq_some_neg (v t : Nat) (n : LearningNode)
    (h : ¬ n.repository.repository_id = t) :
    discardPrereq (some v) t n = n := by
  unfold discardPrereq
  rw [if_neg h]

theorem discardPrereq_comm (a₁ a₂ : Option Nat) (t₁ t₂ : Nat)
    (n : LearningNode) :
    discardPrereq a₂ t₂ (discardPrereq a₁ t₁ n) =
    discardPrereq a₁ t₁ (discardPrereq a₂ t₂ n) := by
  cases a₁ with
  | none =>
    rw [discardPrereq_none t₁ n, discardPrereq_none t₁ (discardPrereq a₂ t₂ n)]
  | some v₁ =>
    cases a₂ with
    | none =>
      rw [discardPrereq_none t₂ n,
        discardPrereq_none t₂ (discardPrereq (some v₁) t₁ n)]
    | some v₂ =>
      by_cases h₁ : n.repository.repository_id = t₁
      · by_cases h₂ : n.repository.repository_id = t₂
        · rw [discardPrereq_some_pos v₁ t₁ n h₁,
            discardPrereq_some_pos v₂ t₂ n h₂,
            discardPrereq_some_pos v₂ t₂ _ (by simpa using h₂),
            discardPrereq_some_pos v₁ t₁ _ (by simpa using h₁)]
          congr 1
          exact prereq_filter_comm n v₁ v₂
        · rw [discardPrereq_some_pos v₁ t₁ n h₁,
            discardPrereq_some_neg v₂ t₂ n h₂,
            discardPrereq_some_neg v₂ t₂ _ (by simpa using h₂),
            discardPrereq_some_pos v₁ t₁ n h₁]
      · by_cases h₂ : n.repository.repository_id = t₂
        · rw [discardPrereq_some_neg v₁ t₁ n h₁,
            discardPrereq_some_pos v₂ t₂ n h₂,
            discardPrereq_some_neg v₁ t₁ _ (by simpa using h₁)]
        · rw [discardPrereq_some_neg v₁ t₁ n h₁,
            discardPrereq_some_neg v₂ t₂ n h₂,
            discardPrereq_some_neg v₁ t₁ n h₁]

theorem discardDep_comm (p : LearningPath) (d₁ d₂ : DependencyRelation) :
    discardDep (discardDep p d₁) d₂ = discardDep (discardDep p d₂) d₁ := by
  rw [discardDep_discardDep, discardDep_discardDep]
  have hdeps : ((p.dependencies.filter (fun e => ¬ e.sameKey d₁)).filter
      (fun e => ¬ e.sameKey d₂)) =
      ((p.dependencies.filter (fun e => ¬ e.sameKey d₂)).filter
      (fun e => ¬ e.sameKey d₁)) :=
    List.filter_comm _ _ _
  have hnodes : ((p.nodes.map (discardPrereq (srcNodeIdFor p d₁)
      d₁.target_repository_id)).map (discardPrereq (srcNodeIdFor p d₂)
      d₂.target_repository_id)) =
      ((p.nodes.map (discardPrereq (srcNodeIdFor p d₂)
      d₂.target_repository_id)).map (discardPrereq (srcNodeIdFor p d₁)
      d₁.target_repository_id)) := by
    rw [List.map_map, List.map_map]
    refine List.map_congr_left ?_
    intro n _
    exact discardPrereq_comm _ _ _ _ n
  rw [hdeps, hnodes]

theorem resolve_cycles_with_perm (p : LearningPath)
    (l₁ l₂ : List DependencyRelation) (h : l₁.Perm l₂) :
    resolve_cycles_with p l₁ = resolve_cycles_with p l₂ := by
  unfold resolve_cycles_with
  exact @List.Perm.foldl_eq _ _ discardDep l₁ l₂
    ⟨fun b a₁ a₂ => discardDep_comm b a₁ a₂⟩ h p

/-- `TopologicalSorterService.sort` does not depend on the iteration order
chosen over the removable edges: any two permutations of the same list give
the same result. -/
theorem sort_with_perm (p : LearningPath) (o₁ o₂ : List DependencyRelation)
    (h : o₁.Perm o₂) :
    TopologicalSorterService.sort_with p o₁ =
    TopologicalSorterService.sort_with p o₂ := by
  unfold TopologicalSorterService.sort_with
  rw [resolve_cycles_with_perm p o₁ o₂ h]

/-- Request fixture for the determinism claim. -/
def reqC9 : GenerateLearningPathRequest :=
  { learner_id := "u9", name := "p9", description := "d9",
    target_skill_types := [], target_skill_level := none,
    max_repositories := none, allow_parallel_learning := false,
    max_parallel_nodes := 3, exclude_repository_ids := [] }

/-- C9 counterexample: two runs of `generate` on equal inputs (same request,
same repositories in the same order, same overrides) are not equal, because
`LearningPath.path_id` is a fresh `uuid4()` draw inside
`GraphBuilderService.build` and is copied into the response; here the two
runs' draws (the `path_id` parameter of the embedding) are 0 and 1 and the
responses differ in exactly that field, which is neither a timestamp nor
`generation_time_ms`. -/
theorem C9_two_runs_differ_in_path_id :
    (PathGeneratorService.generate reqC9 [repoA, repoB] [] 0 100
        (fun l => l)).map (fun r => r.path_id) = Except.ok 0 ∧
    (PathGeneratorService.generate reqC9 [repoA, repoB] [] 1 100
        (fun l => l)).map (fun r => r.path_id) = Except.ok 1 ∧
    PathGeneratorService.generate reqC9 [repoA, repoB] [] 0 100
        (fun l => l) ≠
    PathGeneratorService.generate reqC9 [repoA, repoB] [] 1 100
        (fun l => l) := by
  decide

/-- C9, amended: the pipeline is deterministic up to the run's `uuid4()`
draws.  Once the identifier draws (`path_id`, `node_id_base`) are equal, the
whole response — node order, milestone grouping and every field — is equal
across runs, for every pair of set-iteration orders the two runs' Python
sets may present the removable edges in (any functions whose output is a
permutation of their input). -/
theorem C9_generate_deterministic_given_equal_id_draws
    (request : GenerateLearningPathRequest) (repositories : List Repository)
    (pending_overrides : List OverrideInstruction) (path_id node_id_base : Nat)
    (σ₁ σ₂ : List DependencyRelation → List DependencyRelation)
    (h₁ : ∀ l, (σ₁ l).Perm l) (h₂ : ∀ l, (σ₂ l).Perm l) :
    PathGeneratorService.generate request repositories pending_overrides
      path_id node_id_base σ₁ =
    PathGeneratorService.generate request repositories pending_overrides
      path_id node_id_base σ₂ := by
  simp only [PathGeneratorService.generate]
  rw [sort_with_perm _ _ _ ((h₁ _).trans (h₂ _).symm)]

/-- Witness for the amended determinism theorem: the identity order and the
reversed order over the removable edges give the same response on a concrete
run. -/
theorem C9_witness :
    PathGeneratorService.generate reqC9 [repoA, repoB] [] 0 100 id =
    PathGeneratorService.generate reqC9 [repoA, repoB] [] 0 100 List.reverse :=
  C9_generate_deterministic_given_equal_id_draws reqC9 [repoA, repoB] [] 0 100
    id List.reverse (fun l => List.Perm.refl l) (fun l => List.reverse_perm l)

end LearnPath
